import Mathlib

/-!
Shallow embedding of the reminder-scheduling core of `bot.py` (Notify-bot).

Strings are modelled as `List Char` (`Str`).  Python's `datetime.strptime`
calls are modelled character-by-character after the regexes CPython's
`_strptime` compiles for the format directives used by the source
(`%I.%M %p` for times, `%d/%m/%y %I.%M %p` for absolute dates), restricted
to ASCII.  Python `int()` is modelled on ASCII digit strings with optional
sign and underscore separators.  The SQLite tables (`users`, `reminders`,
`scheduled_jobs`) are lists inside a `DB` structure; the APScheduler
instance is a `Sched` structure holding armed jobs.
-/

namespace NotifyBot

abbrev Str := List Char

/-- ASCII digit class, the `\d` of the compiled strptime regex. -/
def isDigitC (c : Char) : Bool :=
  c == '0' || c == '1' || c == '2' || c == '3' || c == '4' ||
  c == '5' || c == '6' || c == '7' || c == '8' || c == '9'

/-- The `[1-9]` character class. -/
def isDigit19 (c : Char) : Bool :=
  c == '1' || c == '2' || c == '3' || c == '4' ||
  c == '5' || c == '6' || c == '7' || c == '8' || c == '9'

/-- The `[0-2]` character class. -/
def isDigit02 (c : Char) : Bool :=
  c == '0' || c == '1' || c == '2'

/-- The `[0-5]` character class. -/
def isDigit05 (c : Char) : Bool :=
  c == '0' || c == '1' || c == '2' || c == '3' || c == '4' || c == '5'

/-- Numeric value of an ASCII digit (0 for non-digits). -/
def digitVal (c : Char) : Nat :=
  if c == '1' then 1 else if c == '2' then 2 else if c == '3' then 3 else
  if c == '4' then 4 else if c == '5' then 5 else if c == '6' then 6 else
  if c == '7' then 7 else if c == '8' then 8 else if c == '9' then 9 else 0

/-- The ASCII digit character for a value `0..9`. -/
def digitChar : Nat → Char
  | 0 => '0' | 1 => '1' | 2 => '2' | 3 => '3' | 4 => '4'
  | 5 => '5' | 6 => '6' | 7 => '7' | 8 => '8' | _ => '9'

/-- The `\s` class of the strptime regex (ASCII whitespace). -/
def isSpaceC (c : Char) : Bool :=
  c == ' ' || c == '\t' || c == '\n' || c == '\r' ||
  c == Char.ofNat 11 || c == Char.ofNat 12

/-- Python `str.strip()` (ASCII whitespace). -/
def pyStrip (s : Str) : Str :=
  ((s.dropWhile fun c => isSpaceC c).reverse.dropWhile fun c => isSpaceC c).reverse

/-- Digit run of Python `int()` after an optional sign: `\d(_?\d)*`. -/
def pyDigitsAux : Nat → Str → Option Nat
  | acc, [] => some acc
  | acc, c :: cs =>
      if c == '_' then
        match cs with
        | c' :: cs' =>
            if isDigitC c' then pyDigitsAux (acc * 10 + digitVal c') cs' else none
        | [] => none
      else if isDigitC c then pyDigitsAux (acc * 10 + digitVal c) cs else none

def pyDigits : Str → Option Nat
  | c :: cs => if isDigitC c then pyDigitsAux (digitVal c) cs else none
  | [] => none

/-- Python `int(s)` on a decimal string: strip, optional sign, digits. -/
def pyInt (s : Str) : Option Int :=
  match pyStrip s with
  | [] => none
  | c :: rest =>
      if c == '+' then (pyDigits rest).map Int.ofNat
      else if c == '-' then (pyDigits rest).map fun n => -(Int.ofNat n)
      else (pyDigits (c :: rest)).map Int.ofNat

/-- `%I` directive: `(1[0-2]|0[1-9]|[1-9])`, also used for `%m`. -/
def parseHour12 : Str → Option (Nat × Str)
  | c1 :: c2 :: rest =>
      if c1 == '1' && isDigit02 c2 then some (10 + digitVal c2, rest)
      else if c1 == '0' && isDigit19 c2 then some (digitVal c2, rest)
      else if isDigit19 c1 then some (digitVal c1, c2 :: rest)
      else none
  | [c1] => if isDigit19 c1 then some (digitVal c1, []) else none
  | [] => none

/-- `%M` directive: `([0-5]\d|\d)`. -/
def parseMin : Str → Option (Nat × Str)
  | c1 :: c2 :: rest =>
      if isDigit05 c1 && isDigitC c2 then some (10 * digitVal c1 + digitVal c2, rest)
      else if isDigitC c1 then some (digitVal c1, c2 :: rest)
      else none
  | [c1] => if isDigitC c1 then some (digitVal c1, []) else none
  | [] => none

/-- Whitespace in the format string: `\s+`. -/
def parseSpaces1 : Str → Option Str
  | c :: rest => if isSpaceC c then some (rest.dropWhile fun x => isSpaceC x) else none
  | [] => none

/-- `%p` directive: `(AM|PM)` matched case-insensitively, must end the input.
    Returns `true` for PM. -/
def meridiem : Str → Option Bool
  | [c1, c2] =>
      if (c1 == 'A' || c1 == 'a') && (c2 == 'M' || c2 == 'm') then some false
      else if (c1 == 'P' || c1 == 'p') && (c2 == 'M' || c2 == 'm') then some true
      else none
  | _ => none

/-- `datetime.hour` after `%I`+`%p`: 12 AM is 0, 12 PM is 12. -/
def to24 (pm : Bool) (h : Nat) : Nat :=
  if pm then (if h == 12 then 12 else h + 12) else (if h == 12 then 0 else h)

/-- Stage of `strptime(s, "%I.%M %p")` after hour and minute: whitespace,
    then the meridiem, then end of input. -/
def parse12AfterMin (h m : Nat) (r3 : Str) : Option (Nat × Nat) :=
  (parseSpaces1 r3).bind fun r4 => (meridiem r4).map fun pm => (to24 pm h, m)

/-- Stage of `strptime(s, "%I.%M %p")` after the hour: the literal dot,
    then the minute. -/
def parse12AfterHour (h : Nat) (r1 : Str) : Option (Nat × Nat) :=
  match r1 with
  | '.' :: r2 => (parseMin r2).bind fun q => parse12AfterMin h q.1 q.2
  | _ => none

/-- `datetime.strptime(s, "%I.%M %p")`, as the pair (24h hour, minute). -/
def parse12 (s : Str) : Option (Nat × Nat) :=
  (parseHour12 s).bind fun p => parse12AfterHour p.1 p.2

/-- `%d` directive: `(3[01]|[12]\d|0[1-9]|[1-9])`. -/
def parseDay : Str → Option (Nat × Str)
  | c1 :: c2 :: rest =>
      if c1 == '3' && (c2 == '0' || c2 == '1') then some (30 + digitVal c2, rest)
      else if (c1 == '1' || c1 == '2') && isDigitC c2 then
        some (10 * digitVal c1 + digitVal c2, rest)
      else if c1 == '0' && isDigit19 c2 then some (digitVal c2, rest)
      else if isDigit19 c1 then some (digitVal c1, c2 :: rest)
      else none
  | [c1] => if isDigit19 c1 then some (digitVal c1, []) else none
  | [] => none

/-- `%y` directive: `(\d\d)`, exactly two digits. -/
def parseYear2 : Str → Option (Nat × Str)
  | c1 :: c2 :: rest =>
      if isDigitC c1 && isDigitC c2 then some (10 * digitVal c1 + digitVal c2, rest)
      else none
  | _ => none

def isLeap (y : Nat) : Bool :=
  (y % 4 == 0 && y % 100 != 0) || y % 400 == 0

def daysInMonth (y mo : Nat) : Nat :=
  if mo == 2 then (if isLeap y then 29 else 28)
  else if mo == 4 || mo == 6 || mo == 9 || mo == 11 then 30
  else 31

def daysBeforeMonth (y mo : Nat) : Nat :=
  (List.range (mo - 1)).foldl (fun a i => a + daysInMonth y (i + 1)) 0

def daysBeforeYear (y : Nat) : Nat :=
  let p := y - 1
  365 * p + p / 4 - p / 100 + p / 400

/-- Seconds timestamp of a (proleptic-Gregorian) calendar instant, the
    comparison key of a Python `datetime`. -/
def toTimestamp (y mo d h mi : Nat) : Nat :=
  (daysBeforeYear y + daysBeforeMonth y mo + (d - 1)) * 86400 + h * 3600 + mi * 60

/-- `datetime.strptime(s, "%d/%m/%y %I.%M %p")` as a seconds timestamp;
    `%y` maps 00-68 to 2000+, 69-99 to 1900+; the `datetime` constructor
    rejects a day beyond the month's length. -/
def dateParse (s : Str) : Option Nat := do
  let (d, r1) ← parseDay s
  match r1 with
  | '/' :: r2 => do
      let (mo, r3) ← parseHour12 r2
      match r3 with
      | '/' :: r4 => do
          let (yy, r5) ← parseYear2 r4
          let r6 ← parseSpaces1 r5
          let (h, r7) ← parseHour12 r6
          match r7 with
          | '.' :: r8 => do
              let (mi, r9) ← parseMin r8
              let r10 ← parseSpaces1 r9
              let pm ← meridiem r10
              let y := if yy ≤ 68 then 2000 + yy else 1900 + yy
              if d ≤ daysInMonth y mo then pure (toTimestamp y mo d (to24 pm h) mi)
              else none
          | _ => none
      | _ => none
  | _ => none

/-! ## Data model: the SQLite tables and the APScheduler instance -/

def stActive : Str := "active".toList
def stCompleted : Str := "completed".toList
def stMinHour : Str := "min_hour".toList
def stDate : Str := "date".toList
def stDaily : Str := "daily".toList

/-- A row of the `reminders` table. -/
structure Reminder where
  id : Nat
  userId : Nat
  message : Str
  scheduleType : Str
  timeValue : Str
  repeatCount : Nat
  status : Str
  deriving Repr, DecidableEq

/-- The database: `users`, `reminders`, `scheduled_jobs` tables plus the
    `AUTOINCREMENT` counter of `reminders`. `scheduledJobs` rows are
    `(reminder_id, job_id)` pairs. -/
structure DB where
  users : List (Nat × Str)
  reminders : List Reminder
  scheduledJobs : List (Nat × Nat)
  nextId : Nat
  deriving Repr, DecidableEq

def DB.empty : DB := ⟨[], [], [], 1⟩

/-- An APScheduler trigger: `trigger="date"` (one-shot at an instant) or
    `trigger="cron"` (recurring daily at hour:minute). -/
inductive Trigger
  | once (runAt : Int)
  | cron (hour minute : Nat)
  deriving Repr, DecidableEq

/-- An armed APScheduler job with the kwargs `send_reminder` receives. -/
structure Job where
  jobId : Nat
  trigger : Trigger
  userId : Nat
  message : Str
  remId : Option Nat
  deriving Repr, DecidableEq

/-- The in-memory scheduler state. -/
structure Sched where
  jobs : List Job
  nextJobId : Nat
  deriving Repr, DecidableEq

def Sched.empty : Sched := ⟨[], 0⟩

/-! ## DB helper functions of `bot.py` -/

/-- `save_reminder`: INSERT with `status='active'`, returns `lastrowid`. -/
def saveReminder (uid : Nat) (msg stype tval : Str) (rep : Nat) (db : DB) :
    DB × Nat :=
  let rid := db.nextId
  ({ db with
      reminders := db.reminders ++
        [{ id := rid, userId := uid, message := msg, scheduleType := stype,
           timeValue := tval, repeatCount := rep, status := stActive }],
      nextId := rid + 1 }, rid)

/-- `set_completed`: UPDATE reminders SET status='completed' WHERE id=?. -/
def setCompleted (rid : Nat) (db : DB) : DB :=
  { db with
      reminders := db.reminders.map fun r =>
        if r.id = rid then { r with status := stCompleted } else r }

/-- `add_job_map`: INSERT INTO scheduled_jobs. -/
def addJobMap (rid jid : Nat) (db : DB) : DB :=
  { db with scheduledJobs := db.scheduledJobs ++ [(rid, jid)] }

/-- `get_jobs`: SELECT job_id FROM scheduled_jobs WHERE reminder_id=?. -/
def getJobs (rid : Nat) (db : DB) : List Nat :=
  db.scheduledJobs.filterMap fun p => if p.1 = rid then some p.2 else none

/-- `remove_mapping`: DELETE FROM scheduled_jobs WHERE reminder_id=?. -/
def removeMapping (rid : Nat) (db : DB) : DB :=
  { db with
      scheduledJobs := db.scheduledJobs.filter fun p =>
        if p.1 = rid then false else true }

/-- The DELETE of `clear_completed`:
    DELETE FROM reminders WHERE user_id=? AND status='completed'. -/
def clearCompleted (uid : Nat) (db : DB) : DB :=
  { db with
      reminders := db.reminders.filter fun r =>
        if r.userId = uid ∧ r.status = stCompleted then false else true }

/-! ## Scheduler operations -/

/-- `scheduler.add_job(...)`, returning the new job's id. -/
def addJob (tr : Trigger) (uid : Nat) (msg : Str) (remId : Option Nat)
    (sch : Sched) : Sched × Nat :=
  let jid := sch.nextJobId
  ({ jobs := sch.jobs ++ [⟨jid, tr, uid, msg, remId⟩], nextJobId := jid + 1 }, jid)

/-- `scheduler.remove_job(jid)` (wrapped in try/except at call sites). -/
def removeJob (jid : Nat) (sch : Sched) : Sched :=
  { sch with jobs := sch.jobs.filter fun j => if j.jobId = jid then false else true }

/-! ## `send_reminder`: the firing callback.

`delivered` records whether `bot.send_message` succeeded; a failure is
logged and swallowed, so the state change does not depend on it.  The
completion path runs under Python truthiness `if rem_id:`, i.e. for a
non-`None`, non-zero reminder id. -/

def sendReminder (_delivered : Bool) (remId : Option Nat) (db : DB) : DB :=
  match remId with
  | some rid => if rid ≠ 0 then removeMapping rid (setCompleted rid db) else db
  | none => db

/-! ## Relative ("min_hour") duration handling -/

/-- The input validation of the `min_hour` dialog step (line 721):
    `text.endswith("m") or text.endswith("h")`. -/
def relValid (s : Str) : Bool :=
  s.getLast? == some 'm' || s.getLast? == some 'h'

/-- `60 if tval.endswith("m") else 3600`. -/
def relUnit (s : Str) : Int :=
  if s.getLast? == some 'm' then 60 else 3600

/-- `int(tval[:-1]) * (60 if tval.endswith("m") else 3600)`; `none` when
    `int` raises `ValueError`. -/
def relSeconds (s : Str) : Option Int :=
  (pyInt s.dropLast).map fun n => n * relUnit s

/-! ## Dialog (`context.user_data`) model and `text_handler` branches.

Each branch function receives the already-stripped message text
(`text = update.message.text.strip()`). -/

def stMinHourMode : Str := "min_hour".toList
def stMinHourMsg : Str := "min_hour_msg".toList
def stDateMessage : Str := "date_message".toList
def stDailyMsg : Str := "daily_msg".toList
def stDateTime : Str := "date_time".toList
def stDailySingleTime : Str := "daily_single_time".toList
def stDailyMultiTime : Str := "daily_multi_time".toList

/-- The per-user dialog scratch state (`context.user_data`). -/
structure UserData where
  mode : Str
  time : Option Str
  date : Option Str
  msg : Option Str
  dailyTimes : Option (List Str)
  deriving Repr, DecidableEq

/-- MINUTES/HOURS STEP 1 (lines 720-727): accept any text ending in `m` or
    `h`; on wrong format reply and leave the dialog state unchanged. -/
def minHourStep (text : Str) (ud : UserData) : UserData :=
  if relValid text then { ud with time := some text, mode := stMinHourMsg }
  else ud

/-- DATE STEP 2 (lines 808-817): `strptime(text, "%I.%M %p")`; on failure
    reply and leave the dialog state unchanged. -/
def dateTimeStep (text : Str) (ud : UserData) : UserData :=
  if (parse12 text).isSome then { ud with time := some text, mode := stDateMessage }
  else ud

/-- DAILY single time (lines 861-870). -/
def dailySingleStep (text : Str) (ud : UserData) : UserData :=
  if (parse12 text).isSome then
    { ud with dailyTimes := some [text], mode := stDailyMsg }
  else ud

/-- `[i.strip() for i in text.split("\n") if i.strip()]`. -/
def splitLinesNonEmpty (text : Str) : List Str :=
  ((text.splitOn '\n').map pyStrip).filter fun l => l ≠ []

/-- The validation loop of the daily multi-time step: on the first line
    that fails to parse the handler returns (an error reply) at once;
    otherwise it accumulates the lines. -/
def collectLines : List Str → Option (List Str)
  | [] => some []
  | l :: rest =>
      match parse12 l with
      | some _ => (collectLines rest).map fun v => l :: v
      | none => none

/-- DAILY multi time (lines 875-889). -/
def dailyMultiStep (text : Str) (ud : UserData) : UserData :=
  match collectLines (splitLinesNonEmpty text) with
  | some v => { ud with dailyTimes := some v, mode := stDailyMsg }
  | none => ud

/-! ## Finalization flows (Draft to Active transitions)

Each flow is a function on the pair (database, scheduler).  A Python
exception raised mid-flow (e.g. `int()` on a junk duration) aborts the
remaining statements but keeps the mutations already committed. -/

structure Sys where
  db : DB
  sch : Sched
  deriving Repr, DecidableEq

def Sys.init : Sys := ⟨DB.empty, Sched.empty⟩

/-- `repeat_no` callback (lines 633-672): save with repeat 0, arm one
    one-shot job at now + seconds, record the mapping. -/
def repeatNoStep (now : Int) (target : Nat) (msg tval : Str) (s : Sys) : Sys :=
  let (db1, rid) := saveReminder target msg stMinHour tval 0 s.db
  match relSeconds tval with
  | none => ⟨db1, s.sch⟩
  | some secs =>
      let (sch1, jid) := addJob (Trigger.once (now + secs)) target msg (some rid) s.sch
      ⟨addJobMap rid jid db1, sch1⟩

/-- One iteration of the arming loop of the repeat-count flow:
    `run_time = datetime.now() + timedelta(seconds=seconds * (i + 1))`. -/
def armRepeatIter (now : Int) (target : Nat) (msg : Str) (rid : Nat) (secs : Int)
    (st : DB × Sched) (i : Nat) : DB × Sched :=
  let (sch1, jid) :=
    addJob (Trigger.once (now + secs * ((i : Int) + 1))) target msg (some rid) st.2
  (addJobMap rid jid st.1, sch1)

/-- MINUTES/HOURS STEP 3 (lines 750-789): save with the entered repeat
    count, then `for i in range(repeat_count)` arm one job per `i`. -/
def repeatCountStep (now : Int) (target : Nat) (msg tval : Str) (rep : Nat)
    (s : Sys) : Sys :=
  let (db1, rid) := saveReminder target msg stMinHour tval rep s.db
  match relSeconds tval with
  | none => ⟨db1, s.sch⟩
  | some secs =>
      let st := (List.range rep).foldl (armRepeatIter now target msg rid secs) (db1, s.sch)
      ⟨st.1, st.2⟩

/-- DATE STEP 3 (lines 822-856): `dt` is computed before `save_reminder`,
    so a parse failure persists nothing. -/
def dateFinalizeStep (target : Nat) (msg dateStr timeStr : Str) (s : Sys) : Sys :=
  match dateParse (dateStr ++ ' ' :: timeStr) with
  | none => s
  | some dt =>
      let (db1, rid) :=
        saveReminder target msg stDate (dateStr ++ ' ' :: timeStr) 0 s.db
      let (sch1, jid) := addJob (Trigger.once (dt : Int)) target msg (some rid) s.sch
      ⟨addJobMap rid jid db1, sch1⟩

/-- The arming loop shared by daily finalization (lines 902-919) and daily
    recovery (lines 1092-1107): one cron job per time entry, armed with
    `rem_id=None`; a strptime failure aborts the rest of the loop. -/
def armDaily (target : Nat) (msg : Str) (rid : Nat) :
    List Str → DB → Sched → DB × Sched
  | [], db, sch => (db, sch)
  | tstr :: ts, db, sch =>
      match parse12 tstr with
      | none => (db, sch)
      | some (h, mi) =>
          let (sch1, jid) := addJob (Trigger.cron h mi) target msg none sch
          armDaily target msg rid ts (addJobMap rid jid db) sch1

/-- DAILY STEP message (lines 894-929): save with `";".join(times)`, arm
    one cron job per time. -/
def dailyFinalizeStep (target : Nat) (msg : Str) (times : List Str) (s : Sys) : Sys :=
  let (db1, rid) := saveReminder target msg stDaily (List.intercalate [';'] times) 0 s.db
  let st := armDaily target msg rid times db1 s.sch
  ⟨st.1, st.2⟩

/-! ## Firing, deletion, clearing -/

/-- A one-shot (`date` trigger) job firing: APScheduler discards the job,
    then the callback `send_reminder` runs. -/
def fireOnceStep (delivered : Bool) (j : Job) (s : Sys) : Sys :=
  ⟨sendReminder delivered j.remId s.db, removeJob j.jobId s.sch⟩

/-- A cron job firing: the job stays armed. -/
def fireCronStep (delivered : Bool) (j : Job) (s : Sys) : Sys :=
  ⟨sendReminder delivered j.remId s.db, s.sch⟩

/-- `delete_reminder` (lines 997-1029): `none` when no reminder with this
    id belongs to this user (the handler replies "not found" and mutates
    nothing); otherwise cancel the mapped jobs, remove the mappings,
    delete the row. -/
def deleteReminderStep (uid rid : Nat) (s : Sys) : Option Sys :=
  if s.db.reminders.any fun r => decide (r.id = rid ∧ r.userId = uid) then
    let sch1 := (getJobs rid s.db).foldl (fun sc j => removeJob j sc) s.sch
    let db1 := removeMapping rid s.db
    let db2 := { db1 with
      reminders := db1.reminders.filter fun r => if r.id = rid then false else true }
    some ⟨db2, sch1⟩
  else none

/-- `clear_completed` handler (lines 984-996). -/
def clearCompletedStep (uid : Nat) (s : Sys) : Sys :=
  ⟨clearCompleted uid s.db, s.sch⟩

/-! ## Recovery (`reload_scheduled_jobs`, lines 1055-1110) -/

/-- Processing of one fetched row inside recovery's for-loop; the whole
    body is wrapped in try/except, so a parse failure arms nothing further
    for this row. -/
def reloadRow (now : Nat) (r : Reminder) (db : DB) (sch : Sched) : DB × Sched :=
  if r.scheduleType = stMinHour then
    match relSeconds r.timeValue with
    | none => (db, sch)
    | some secs =>
        let (sch1, jid) :=
          addJob (Trigger.once ((now : Int) + secs)) r.userId r.message (some r.id) sch
        (addJobMap r.id jid db, sch1)
  else if r.scheduleType = stDate then
    match dateParse r.timeValue with
    | none => (db, sch)
    | some dt =>
        if now < dt then
          let (sch1, jid) :=
            addJob (Trigger.once (dt : Int)) r.userId r.message (some r.id) sch
          (addJobMap r.id jid db, sch1)
        else (db, sch)
  else if r.scheduleType = stDaily then
    armDaily r.userId r.message r.id (r.timeValue.splitOn ';') db sch
  else (db, sch)

/-- Recovery's for-loop over the fetched rows. -/
def reloadRows (now : Nat) (rows : List Reminder) (st : DB × Sched) : DB × Sched :=
  rows.foldl (fun acc r => reloadRow now r acc.1 acc.2) st

/-- `reload_scheduled_jobs`: fetch the `status='active'` rows, then re-arm
    each in order. -/
def reloadScheduledJobs (now : Nat) (s : Sys) : Sys :=
  let rows := s.db.reminders.filter fun r => if r.status = stActive then true else false
  let st := reloadRows now rows (s.db, s.sch)
  ⟨st.1, st.2⟩

/-! ## Derived definitions used by the claims -/

/-- Length of the longest prefix of a time list whose entries all parse;
    recovery's per-reminder loop stops at the first failure. -/
def parsedPrefixLen : List Str → Nat
  | [] => 0
  | t :: ts => if (parse12 t).isSome then parsedPrefixLen ts + 1 else 0

/-- Number of triggers recovery arms for one fetched row. -/
def armCount (now : Nat) (r : Reminder) : Nat :=
  if r.scheduleType = stMinHour then
    (if (relSeconds r.timeValue).isSome then 1 else 0)
  else if r.scheduleType = stDate then
    (match dateParse r.timeValue with
     | some dt => if now < dt then 1 else 0
     | none => 0)
  else if r.scheduleType = stDaily then parsedPrefixLen (r.timeValue.splitOn ';')
  else 0

/-- Value of a plain decimal digit string. -/
def digitsToNat (ds : Str) : Nat := ds.foldl (fun a c => a * 10 + digitVal c) 0

/-- The claim-side acceptance predicate, following the claim's words: a
    positive integer immediately followed by suffix `m` or `h`. -/
def SpecRelAccept (s : Str) : Prop :=
  ∃ ds u, s = ds ++ [u] ∧ (u = 'm' ∨ u = 'h') ∧ ds ≠ [] ∧
    (∀ c ∈ ds, isDigitC c = true) ∧ 1 ≤ digitsToNat ds

def c3Sys : Sys := repeatCountStep 0 9 ['h', 'i'] ['1', 'm'] 2 Sys.init

def c3Job : Job := ⟨0, Trigger.once 60, 9, ['h', 'i'], some 1⟩

/-- Store used by the recovery witness: an active relative reminder, an
    active two-time daily, a completed one, a past absolute and a future
    absolute (recovery runs at a `now` between the two dates). -/
def c4Sys : Sys :=
  ⟨⟨[],
    [⟨1, 7, ['a'], stMinHour, ['5', 'm'], 0, stActive⟩,
     ⟨2, 7, ['b'], stDaily, "10.00 AM;01.30 PM".toList, 0, stActive⟩,
     ⟨3, 7, ['c'], stMinHour, ['2', 'm'], 0, stCompleted⟩,
     ⟨4, 8, ['d'], stDate, "15/11/20 10.15 PM".toList, 0, stActive⟩,
     ⟨5, 8, ['e'], stDate, "15/11/25 10.15 PM".toList, 0, stActive⟩],
    [], 6⟩, Sched.empty⟩

/-! ### The reachable-state transition system (for claim C6)

One step is one complete handler/callback execution of `bot.py` that
touches the reminders table or the scheduler: the three finalization
flows, the two firing shapes of `send_reminder` (one-shot jobs are
discarded by the engine when they fire, cron jobs stay), explicit
deletion, clearing completed reminders, and a process restart (the
in-memory scheduler is lost, then `reload_scheduled_jobs` runs). -/

inductive Step : Sys → Sys → Prop
  | repeatNo (now : Int) (target : Nat) (msg tval : Str) (s : Sys) :
      Step s (repeatNoStep now target msg tval s)
  | repeatCount (now : Int) (target : Nat) (msg tval : Str) (rep : Nat) (s : Sys) :
      Step s (repeatCountStep now target msg tval rep s)
  | dateFinalize (target : Nat) (msg dateStr timeStr : Str) (s : Sys) :
      Step s (dateFinalizeStep target msg dateStr timeStr s)
  | dailyFinalize (target : Nat) (msg : Str) (times : List Str) (s : Sys) :
      Step s (dailyFinalizeStep target msg times s)
  | fireOnce (f : Bool) (j : Job) (s : Sys) (hj : j ∈ s.sch.jobs)
      (ht : ∃ rt, j.trigger = Trigger.once rt) :
      Step s (fireOnceStep f j s)
  | fireCron (f : Bool) (j : Job) (s : Sys) (hj : j ∈ s.sch.jobs)
      (ht : ∃ h mi, j.trigger = Trigger.cron h mi) :
      Step s (fireCronStep f j s)
  | deleteRem (uid rid : Nat) (s s' : Sys)
      (h : deleteReminderStep uid rid s = some s') :
      Step s s'
  | clearStep (uid : Nat) (s : Sys) :
      Step s (clearCompletedStep uid s)
  | restart (now : Nat) (s : Sys) :
      Step s (reloadScheduledJobs now ⟨s.db, Sched.empty⟩)

/-- A state the system can be in, starting from an empty store and an
    empty scheduler. -/
def Reachable (s : Sys) : Prop := Relation.ReflTransGen Step Sys.init s

/-- The inductive invariant: cron jobs never carry a reminder id; a job's
    reminder id never refers to a daily reminder; daily reminders stay
    active; all ids are below the id counter (ids are never reused); job
    payload ids are below the id counter; ids are unique. -/
structure SysInv (s : Sys) : Prop where
  cronNone : ∀ j ∈ s.sch.jobs, ∀ h mi, j.trigger = Trigger.cron h mi → j.remId = none
  onceNotDaily : ∀ j ∈ s.sch.jobs, ∀ rid, j.remId = some rid →
    ∀ r ∈ s.db.reminders, r.id = rid → r.scheduleType ≠ stDaily
  dailyActive : ∀ r ∈ s.db.reminders, r.scheduleType = stDaily → r.status = stActive
  idBound : ∀ r ∈ s.db.reminders, r.id < s.db.nextId
  jobIdBound : ∀ j ∈ s.sch.jobs, ∀ rid, j.remId = some rid → rid < s.db.nextId
  idsNodup : (s.db.reminders.map fun r => r.id).Nodup

/-! ### Spec-side description of the 12-hour time format (for claim C8)

These definitions follow the spec's words — "12-hour clock with explicit
AM/PM meridiem" — and are compared with the parser taken from the
source. -/

/-- The two meridiem characters, with independent letter case; `pm` picks
    P over A. -/
def merChars (pm lc1 lc2 : Bool) : Str :=
  [if pm then (if lc1 then 'p' else 'P') else (if lc1 then 'a' else 'A'),
   if lc2 then 'm' else 'M']

/-- The written forms of a 12-hour clock hour `1..12`: one digit, a
    zero-padded digit, or `10`/`11`/`12`. -/
def HourRep (h : Nat) (cs : Str) : Prop :=
  (1 ≤ h ∧ h ≤ 9 ∧ cs = [digitChar h]) ∨
  (1 ≤ h ∧ h ≤ 9 ∧ cs = ['0', digitChar h]) ∨
  (10 ≤ h ∧ h ≤ 12 ∧ cs = ['1', digitChar (h - 10)])

/-- The written forms of a minute `0..59`: one digit or two digits. -/
def MinRep (m : Nat) (cs : Str) : Prop :=
  (m ≤ 9 ∧ cs = [digitChar m]) ∨
  (m ≤ 59 ∧ cs = [digitChar (m / 10), digitChar (m % 10)])

/-- `cs` is a 12-hour clock time with an explicit AM/PM meridiem whose
    24-hour reading is `(H, M)`: hour, dot, minute, whitespace, meridiem,
    nothing else. -/
def Is12Val (cs : Str) (H M : Nat) : Prop :=
  ∃ h m hcs mcs sp pm lc1 lc2, HourRep h hcs ∧ MinRep m mcs ∧ sp ≠ [] ∧
    (∀ c ∈ sp, isSpaceC c = true) ∧
    cs = hcs ++ '.' :: (mcs ++ sp ++ merChars pm lc1 lc2) ∧
    H = to24 pm h ∧ M = m

/-! ## Basic character lemmas -/

lemma isDigitC_elim {c : Char} (h : isDigitC c = true) :
    c = '0' ∨ c = '1' ∨ c = '2' ∨ c = '3' ∨ c = '4' ∨
    c = '5' ∨ c = '6' ∨ c = '7' ∨ c = '8' ∨ c = '9' := by
  simpa [isDigitC, or_assoc] using h

lemma isDigit19_elim {c : Char} (h : isDigit19 c = true) :
    c = '1' ∨ c = '2' ∨ c = '3' ∨ c = '4' ∨
    c = '5' ∨ c = '6' ∨ c = '7' ∨ c = '8' ∨ c = '9' := by
  simpa [isDigit19, or_assoc] using h

lemma isDigit02_elim {c : Char} (h : isDigit02 c = true) :
    c = '0' ∨ c = '1' ∨ c = '2' := by
  simpa [isDigit02, or_assoc] using h

lemma isDigit05_elim {c : Char} (h : isDigit05 c = true) :
    c = '0' ∨ c = '1' ∨ c = '2' ∨ c = '3' ∨ c = '4' ∨ c = '5' := by
  simpa [isDigit05, or_assoc] using h

lemma isSpaceC_elim {c : Char} (h : isSpaceC c = true) :
    c = ' ' ∨ c = '\t' ∨ c = '\n' ∨ c = '\r' ∨
    c = Char.ofNat 11 ∨ c = Char.ofNat 12 := by
  simpa [isSpaceC, or_assoc] using h

lemma isSpaceC_not_digit {c : Char} (h : isSpaceC c = true) : isDigitC c = false := by
  obtain h | h | h | h | h | h := isSpaceC_elim h <;> subst h <;> decide

lemma isDigit19_to_isDigitC {c : Char} (h : isDigit19 c = true) : isDigitC c = true := by
  obtain h | h | h | h | h | h | h | h | h := isDigit19_elim h <;> subst h <;> decide

lemma isDigit19_pos {c : Char} (h : isDigit19 c = true) : 1 ≤ digitVal c := by
  obtain h | h | h | h | h | h | h | h | h := isDigit19_elim h <;> subst h <;> decide

lemma isDigit02_to_isDigitC {c : Char} (h : isDigit02 c = true) : isDigitC c = true := by
  obtain h | h | h := isDigit02_elim h <;> subst h <;> decide

lemma isDigit02_le2 {c : Char} (h : isDigit02 c = true) : digitVal c ≤ 2 := by
  obtain h | h | h := isDigit02_elim h <;> subst h <;> decide

lemma isDigit05_to_isDigitC {c : Char} (h : isDigit05 c = true) : isDigitC c = true := by
  obtain h | h | h | h | h | h := isDigit05_elim h <;> subst h <;> decide

lemma isDigit05_le5 {c : Char} (h : isDigit05 c = true) : digitVal c ≤ 5 := by
  obtain h | h | h | h | h | h := isDigit05_elim h <;> subst h <;> decide

lemma digitVal_le_nine {c : Char} (h : isDigitC c = true) : digitVal c ≤ 9 := by
  obtain h | h | h | h | h | h | h | h | h | h := isDigitC_elim h <;> subst h <;> decide

lemma isDigitC_not_space {c : Char} (h : isDigitC c = true) : isSpaceC c = false := by
  obtain h | h | h | h | h | h | h | h | h | h := isDigitC_elim h <;> subst h <;> decide

lemma isDigitC_ne_underscore {c : Char} (h : isDigitC c = true) : (c == '_') = false := by
  obtain h | h | h | h | h | h | h | h | h | h := isDigitC_elim h <;> subst h <;> decide

lemma digitChar_digitVal {c : Char} (h : isDigitC c = true) :
    digitChar (digitVal c) = c := by
  obtain h | h | h | h | h | h | h | h | h | h := isDigitC_elim h <;> subst h <;> decide

lemma digitVal_digitChar {n : Nat} (h : n ≤ 9) : digitVal (digitChar n) = n := by
  interval_cases n <;> decide

lemma isDigitC_digitChar {n : Nat} (h : n ≤ 9) : isDigitC (digitChar n) = true := by
  interval_cases n <;> decide

lemma isDigit05_digitChar {n : Nat} (h : n ≤ 5) : isDigit05 (digitChar n) = true := by
  interval_cases n <;> decide

lemma isDigit19_digitChar {n : Nat} (h1 : 1 ≤ n) (h9 : n ≤ 9) :
    isDigit19 (digitChar n) = true := by
  interval_cases n <;> decide

/-! ## Claim C7: `mark_completed` (`set_completed`) is idempotent -/

lemma setCompleted_users (rid : Nat) (db : DB) :
    (setCompleted rid db).users = db.users := rfl

/-- C7: `mark_completed` is idempotent: a second application changes
    nothing, an application to an absent id changes nothing, and an
    application to an already-completed reminder changes nothing. -/
theorem set_completed_idempotent (db : DB) (rid : Nat) :
    setCompleted rid (setCompleted rid db) = setCompleted rid db
    ∧ ((∀ r ∈ db.reminders, r.id ≠ rid) → setCompleted rid db = db)
    ∧ ((∀ r ∈ db.reminders, r.id = rid → r.status = stCompleted) →
        setCompleted rid db = db) := by
  obtain ⟨us, rs, sj, ni⟩ := db
  refine ⟨?_, ?_, ?_⟩
  · simp only [setCompleted, List.map_map]
    congr 1
    exact List.map_congr_left fun r _ => by
      by_cases h : r.id = rid <;> simp [Function.comp, h]
  · intro h
    simp only [setCompleted, DB.mk.injEq, and_true, true_and]
    conv_rhs => rw [show rs = rs.map id from (List.map_id rs).symm]
    exact List.map_congr_left fun r hr => by simp [h r hr]
  · intro h
    simp only [setCompleted, DB.mk.injEq, and_true, true_and]
    conv_rhs => rw [show rs = rs.map id from (List.map_id rs).symm]
    refine List.map_congr_left fun r hr => ?_
    by_cases hid : r.id = rid
    · have hst := h r hr hid
      obtain ⟨i, u, m, sty, tv, rp, stt⟩ := r
      simp only at hst
      subst hst
      simp [hid]
    · simp [hid]

/-- Witness for C7 at a concrete store. -/
theorem set_completed_idempotent_witness :
    setCompleted 3
        (setCompleted 3
          (DB.mk [] [⟨3, 7, [], stMinHour, [], 0, stActive⟩] [] 4)) =
      setCompleted 3 (DB.mk [] [⟨3, 7, [], stMinHour, [], 0, stActive⟩] [] 4)
    ∧ setCompleted 9 (DB.mk [] [⟨3, 7, [], stMinHour, [], 0, stActive⟩] [] 4) =
      DB.mk [] [⟨3, 7, [], stMinHour, [], 0, stActive⟩] [] 4 := by
  refine ⟨(set_completed_idempotent _ 3).1, ?_⟩
  exact (set_completed_idempotent
    (DB.mk [] [⟨3, 7, [], stMinHour, [], 0, stActive⟩] [] 4) 9).2.1 (by decide)

/-! ## Claim C9: frame effect of `clear_completed` -/

/-- C9: `clear_completed` keeps exactly the reminders of other users and
    the invoking user's non-completed reminders, and leaves the `users`
    rows, the trigger mappings and the id counter untouched. -/
theorem clear_completed_frame (uid : Nat) (db : DB) :
    (∀ r, r ∈ (clearCompleted uid db).reminders ↔
        r ∈ db.reminders ∧ ¬(r.userId = uid ∧ r.status = stCompleted))
    ∧ (clearCompleted uid db).users = db.users
    ∧ (clearCompleted uid db).scheduledJobs = db.scheduledJobs
    ∧ (clearCompleted uid db).nextId = db.nextId := by
  refine ⟨fun r => ?_, rfl, rfl, rfl⟩
  simp only [clearCompleted, List.mem_filter]
  constructor
  · rintro ⟨hm, hc⟩
    refine ⟨hm, ?_⟩
    intro hcontra
    simp [hcontra] at hc
  · rintro ⟨hm, hnc⟩
    refine ⟨hm, ?_⟩
    simp [hnc]

/-! ## Claim C5: `delete_reminder` -/

lemma getJobs_removeMapping (rid : Nat) (db : DB) :
    getJobs rid (removeMapping rid db) = [] := by
  simp only [getJobs, removeMapping, List.filterMap_eq_nil_iff]
  intro p hp
  rw [List.mem_filter] at hp
  obtain ⟨-, hp2⟩ := hp
  by_cases h : p.1 = rid
  · simp [h] at hp2
  · simp [h]

/-- C5: deletion fails with not-found exactly when no reminder with this
    id belongs to this owner (the store is returned unchanged), and
    otherwise removes the reminder row and every one of its trigger
    mappings, so `get_jobs` on that id afterwards is empty. -/
theorem delete_reminder_spec (uid rid : Nat) (s : Sys) :
    (deleteReminderStep uid rid s = none ↔
        ∀ r ∈ s.db.reminders, ¬(r.id = rid ∧ r.userId = uid))
    ∧ (∀ s', deleteReminderStep uid rid s = some s' →
        s'.db.reminders =
          s.db.reminders.filter (fun r => if r.id = rid then false else true)
        ∧ getJobs rid s'.db = []
        ∧ s'.db.scheduledJobs =
          s.db.scheduledJobs.filter (fun p => if p.1 = rid then false else true)
        ∧ s'.db.users = s.db.users
        ∧ s'.db.nextId = s.db.nextId) := by
  constructor
  · by_cases h : ∃ r ∈ s.db.reminders, r.id = rid ∧ r.userId = uid
    · have hb : (s.db.reminders.any fun r => decide (r.id = rid ∧ r.userId = uid)) = true := by
        obtain ⟨r, hr, hp⟩ := h
        exact List.any_eq_true.mpr ⟨r, hr, by simpa using hp⟩
      unfold deleteReminderStep
      rw [if_pos hb]
      constructor
      · intro hc
        exact Option.noConfusion hc
      · intro hall
        obtain ⟨r, hr, hp⟩ := h
        exact absurd hp (hall r hr)
    · have hb : (s.db.reminders.any fun r => decide (r.id = rid ∧ r.userId = uid)) = false := by
        rw [Bool.eq_false_iff]
        intro hc
        obtain ⟨r, hr, hp⟩ := List.any_eq_true.mp hc
        exact h ⟨r, hr, by simpa using hp⟩
      unfold deleteReminderStep
      rw [if_neg (by rw [hb]; exact Bool.false_ne_true)]
      simp only [true_iff]
      intro r hr hp
      exact h ⟨r, hr, hp⟩
  · intro s' hs'
    unfold deleteReminderStep at hs'
    by_cases hb : (s.db.reminders.any fun r => decide (r.id = rid ∧ r.userId = uid)) = true
    · rw [if_pos hb] at hs'
      injection hs' with hs'
      subst hs'
      refine ⟨rfl, getJobs_removeMapping rid s.db, rfl, rfl, rfl⟩
    · rw [if_neg (by simpa using hb)] at hs'
      exact Option.noConfusion hs'

/-- Witness for C5: a store holding reminder 1 for owner 7 with two
    trigger mappings; deleting (1, 7) removes the row and both mappings,
    deleting (2, 7) is a not-found no-op. -/
theorem delete_reminder_spec_witness :
    (deleteReminderStep 7 1
        ⟨DB.mk [] [⟨1, 7, [], stMinHour, ['5', 'm'], 0, stActive⟩]
          [(1, 0), (1, 1)] 2, Sched.empty⟩ ≠ none)
    ∧ (∀ s', deleteReminderStep 7 1
        ⟨DB.mk [] [⟨1, 7, [], stMinHour, ['5', 'm'], 0, stActive⟩]
          [(1, 0), (1, 1)] 2, Sched.empty⟩ = some s' →
        getJobs 1 s'.db = [])
    ∧ deleteReminderStep 7 2
        ⟨DB.mk [] [⟨1, 7, [], stMinHour, ['5', 'm'], 0, stActive⟩]
          [(1, 0), (1, 1)] 2, Sched.empty⟩ = none := by
  refine ⟨?_, ?_, ?_⟩
  · decide
  · intro s' hs'
    exact ((delete_reminder_spec 7 1 _).2 s' hs').2.1
  · exact (delete_reminder_spec 7 2 _).1.mpr (by decide)

/-! ## Python `int` on digit strings -/

lemma isDigitC_ne_sign {c : Char} (h : isDigitC c = true) :
    (c == '+') = false ∧ (c == '-') = false := by
  obtain h | h | h | h | h | h | h | h | h | h := isDigitC_elim h <;> subst h <;> decide

lemma pyDigitsAux_cons_digit (acc : Nat) (c : Char) (cs : Str)
    (hc : isDigitC c = true) :
    pyDigitsAux acc (c :: cs) = pyDigitsAux (acc * 10 + digitVal c) cs := by
  have hne := isDigitC_ne_underscore hc
  cases cs with
  | nil =>
      rw [show pyDigitsAux acc [c] =
        if c == '_' then none
        else if isDigitC c then pyDigitsAux (acc * 10 + digitVal c) [] else none
        from rfl, hne, hc]
      simp
  | cons c' cs' =>
      rw [show pyDigitsAux acc (c :: c' :: cs') =
        if c == '_' then
          (if isDigitC c' then pyDigitsAux (acc * 10 + digitVal c') cs' else none)
        else if isDigitC c then pyDigitsAux (acc * 10 + digitVal c) (c' :: cs') else none
        from rfl, hne, hc]
      simp

lemma pyDigitsAux_all_digits (acc : Nat) (ds : Str)
    (h : ∀ c ∈ ds, isDigitC c = true) :
    pyDigitsAux acc ds = some (ds.foldl (fun a c => a * 10 + digitVal c) acc) := by
  induction ds generalizing acc with
  | nil => rfl
  | cons c cs ih =>
      have hc := h c (List.mem_cons_self c cs)
      rw [pyDigitsAux_cons_digit acc c cs hc, List.foldl_cons]
      exact ih _ fun d hd => h d (List.mem_cons_of_mem c hd)

lemma pyDigits_all_digits (ds : Str) (hne : ds ≠ [])
    (h : ∀ c ∈ ds, isDigitC c = true) :
    pyDigits ds = some (digitsToNat ds) := by
  cases ds with
  | nil => exact absurd rfl hne
  | cons c cs =>
      have hc := h c (List.mem_cons_self c cs)
      simp only [pyDigits, hc, if_true, digitsToNat, List.foldl_cons, Nat.zero_mul,
        Nat.zero_add]
      exact pyDigitsAux_all_digits _ _ fun d hd => h d (List.mem_cons_of_mem c hd)

lemma dropWhile_no_space (l : Str) (h : ∀ c ∈ l, isSpaceC c = false) :
    (l.dropWhile fun c => isSpaceC c) = l := by
  cases l with
  | nil => rfl
  | cons c cs =>
      rw [List.dropWhile_cons_of_neg]
      simp [h c (List.mem_cons_self c cs)]

lemma pyStrip_all_digits (ds : Str) (h : ∀ c ∈ ds, isDigitC c = true) :
    pyStrip ds = ds := by
  have h1 : ∀ c ∈ ds, isSpaceC c = false := fun c hc => isDigitC_not_space (h c hc)
  unfold pyStrip
  rw [dropWhile_no_space ds h1,
    dropWhile_no_space ds.reverse (fun c hc => h1 c (List.mem_reverse.mp hc)),
    List.reverse_reverse]

lemma pyInt_all_digits (ds : Str) (hne : ds ≠ [])
    (h : ∀ c ∈ ds, isDigitC c = true) :
    pyInt ds = some ((digitsToNat ds : Int)) := by
  unfold pyInt
  rw [pyStrip_all_digits ds h]
  cases ds with
  | nil => exact absurd rfl hne
  | cons c cs =>
      have hc := h c (List.mem_cons_self c cs)
      obtain ⟨hp, hm⟩ := isDigitC_ne_sign hc
      simp only [hp, hm, Bool.false_eq_true, if_false]
      rw [pyDigits_all_digits (c :: cs) (by simp) h]
      rfl

lemma relSeconds_digits (ds : Str) (u : Char) (hne : ds ≠ [])
    (h : ∀ c ∈ ds, isDigitC c = true) (hu : u = 'm' ∨ u = 'h') :
    relSeconds (ds ++ [u]) =
      some ((digitsToNat ds : Int) * (if u = 'm' then 60 else 3600)) := by
  unfold relSeconds relUnit
  rw [List.dropLast_concat, List.getLast?_concat, pyInt_all_digits ds hne h]
  obtain hu | hu := hu <;> subst hu <;> simp

/-! ## Claim C2: relative duration validation (corrected) -/

/-- C2 counterexample: `"0m"` passes the input validation of line 721
    although `0` is not a positive integer, and it goes on to schedule a
    fire 0 seconds out rather than being rejected. -/
theorem relative_validation_counterexample :
    relValid ['0', 'm'] = true ∧ ¬SpecRelAccept ['0', 'm']
    ∧ relSeconds ['0', 'm'] = some 0 := by
  refine ⟨by decide, ?_, by decide⟩
  rintro ⟨ds, u, heq, hu, hne, hd, hpos⟩
  match ds, heq with
  | [], heq =>
      exact absurd rfl hne
  | [a], heq =>
      have ha : '0' = a ∧ 'm' = u := by simpa using heq
      rw [← ha.1] at hpos
      exact absurd hpos (by decide)
  | a :: b :: t, heq =>
      have hlen := congrArg List.length heq
      simp at hlen

/-- C2 amended: the input validation accepts exactly the strings ending
    in `m` or `h` (line 721 checks only the suffix).  For an accepted
    string whose prefix is a plain decimal number the scheduled duration
    is value*60 (`m`) or value*3600 (`h`) seconds — including zero; an
    accepted string with a non-numeric prefix raises at scheduling time
    (`int(tval[:-1])`) instead of being a validation error; a rejected
    string leaves the dialog at the same step. -/
theorem relative_validation_amended :
    (∀ s : Str, relValid s = true ↔ (s.getLast? = some 'm' ∨ s.getLast? = some 'h'))
    ∧ (∀ ds : Str, ds ≠ [] → (∀ c ∈ ds, isDigitC c = true) →
        relSeconds (ds ++ ['m']) = some ((digitsToNat ds : Int) * 60)
        ∧ relSeconds (ds ++ ['h']) = some ((digitsToNat ds : Int) * 3600))
    ∧ relValid ['x', 'm'] = true ∧ relSeconds ['x', 'm'] = none
    ∧ (∀ text ud, relValid text = false → minHourStep text ud = ud) := by
  refine ⟨?_, ?_, by decide, by decide, ?_⟩
  · intro s
    simp [relValid]
  · intro ds hne hd
    constructor
    · simpa using relSeconds_digits ds 'm' hne hd (Or.inl rfl)
    · simpa using relSeconds_digits ds 'h' hne hd (Or.inr rfl)
  · intro text ud hv
    simp [minHourStep, hv]

/-- Witness for the amended C2 at `"2m"` and the rejected `"2k"`. -/
theorem relative_validation_amended_witness :
    relSeconds (['2'] ++ ['m']) = some ((digitsToNat ['2'] : Int) * 60)
    ∧ minHourStep ['2', 'k'] ⟨stMinHourMode, none, none, none, none⟩ =
        ⟨stMinHourMode, none, none, none, none⟩ := by
  refine ⟨(relative_validation_amended.2.1 ['2'] (by decide) (by decide)).1, ?_⟩
  exact relative_validation_amended.2.2.2.2 ['2', 'k'] _ (by decide)

/-! ## Claim C1: arming of relative repeats (corrected) -/

lemma armRepeat_fold_effect (now : Int) (target : Nat) (msg : Str) (rid : Nat)
    (secs : Int) (rep : Nat) (db : DB) (sch : Sched) :
    (List.range rep).foldl (armRepeatIter now target msg rid secs) (db, sch) =
      ({ db with scheduledJobs := db.scheduledJobs ++
          ((List.range rep).map fun i => (rid, sch.nextJobId + i)) },
       { jobs := sch.jobs ++ ((List.range rep).map fun i =>
           ⟨sch.nextJobId + i, Trigger.once (now + secs * ((i : Int) + 1)),
            target, msg, some rid⟩),
         nextJobId := sch.nextJobId + rep }) := by
  induction rep with
  | zero => simp
  | succ n ih =>
      rw [List.range_succ, List.foldl_append, ih, List.foldl_cons, List.foldl_nil]
      simp only [armRepeatIter, addJob, addJobMap, List.range_succ, List.map_append,
        List.map_cons, List.map_nil, List.append_assoc, Nat.add_assoc]

/-- C1 counterexample: a relative reminder created with `"1m"` and repeat
    count 2 has 2 one-shot triggers armed, not 3. -/
theorem relative_repeat_counterexample :
    (repeatCountStep 0 9 ['h', 'i'] ['1', 'm'] 2 Sys.init).sch.jobs.length = 2
    ∧ ¬((repeatCountStep 0 9 ['h', 'i'] ['1', 'm'] 2 Sys.init).sch.jobs.length
        = 2 + 1) := by
  decide

/-- C1 amended: finalizing a relative reminder through the repeat-count
    dialog with repeat count N arms exactly N independent one-shot
    triggers, the i-th scheduled at creation time plus i times the base
    interval (i = 1..N), all sharing the reminder id assigned at save
    time; a `"1m"` reminder with repeat 2 has 2 total fires scheduled. -/
theorem relative_repeat_arming (now : Int) (target : Nat) (msg ds : Str)
    (u : Char) (rep : Nat) (s : Sys) (hne : ds ≠ [])
    (hdig : ∀ c ∈ ds, isDigitC c = true) (hu : u = 'm' ∨ u = 'h') :
    (repeatCountStep now target msg (ds ++ [u]) rep s).sch.jobs =
      s.sch.jobs ++ ((List.range rep).map fun i =>
        ⟨s.sch.nextJobId + i,
         Trigger.once (now +
           (digitsToNat ds : Int) * (if u = 'm' then 60 else 3600) * ((i : Int) + 1)),
         target, msg, some s.db.nextId⟩)
    ∧ getJobs s.db.nextId (repeatCountStep now target msg (ds ++ [u]) rep s).db =
      getJobs s.db.nextId s.db ++ ((List.range rep).map fun i => s.sch.nextJobId + i)
    ∧ (repeatCountStep now target msg (ds ++ [u]) rep s).db.reminders =
      s.db.reminders ++
        [⟨s.db.nextId, target, msg, stMinHour, ds ++ [u], rep, stActive⟩] := by
  unfold repeatCountStep saveReminder
  rw [relSeconds_digits ds u hne hdig hu]
  simp only [armRepeat_fold_effect]
  refine ⟨trivial, ?_, trivial⟩
  simp only [getJobs, List.filterMap_append, List.filterMap_map]
  congr 1
  have hfun : ((fun p : Nat × Nat => if p.1 = s.db.nextId then some p.2 else none) ∘
      fun i : Nat => (s.db.nextId, s.sch.nextJobId + i)) =
      some ∘ fun i : Nat => s.sch.nextJobId + i := by
    funext i
    simp
  rw [hfun, List.filterMap_eq_map]

/-- Witness for the amended C1: `"1m"` with repeat 2 at time 0 arms the
    jobs at +60 and +120 seconds, both mapped to reminder id 1. -/
theorem relative_repeat_arming_witness :
    (repeatCountStep 0 9 ['h', 'i'] (['1'] ++ ['m']) 2 Sys.init).sch.jobs =
      Sys.init.sch.jobs ++ ((List.range 2).map fun i =>
        ⟨Sys.init.sch.nextJobId + i,
         Trigger.once (0 +
           (digitsToNat ['1'] : Int) * (if ('m' : Char) = 'm' then 60 else 3600) *
             ((i : Int) + 1)),
         9, ['h', 'i'], some Sys.init.db.nextId⟩)
    ∧ getJobs Sys.init.db.nextId
        (repeatCountStep 0 9 ['h', 'i'] (['1'] ++ ['m']) 2 Sys.init).db =
      getJobs Sys.init.db.nextId Sys.init.db ++
        ((List.range 2).map fun i => Sys.init.sch.nextJobId + i) := by
  have h := relative_repeat_arming 0 9 ['h', 'i'] ['1'] 'm' 2 Sys.init
    (by decide) (by decide) (Or.inl rfl)
  exact ⟨h.1, h.2.1⟩

/-! ## Claim C10: the daily multi-time step is all-or-nothing -/

lemma collectLines_all (ls : List Str) (h : ∀ l ∈ ls, (parse12 l).isSome) :
    collectLines ls = some ls := by
  induction ls with
  | nil => rfl
  | cons l rest ih =>
      have hl := h l (List.mem_cons_self l rest)
      obtain ⟨v, hv⟩ := Option.isSome_iff_exists.mp hl
      simp only [collectLines, hv]
      rw [ih fun d hd => h d (List.mem_cons_of_mem l hd)]
      rfl

lemma collectLines_failure (ls : List Str) (l : Str) (hl : l ∈ ls)
    (h : parse12 l = none) : collectLines ls = none := by
  induction ls with
  | nil => cases hl
  | cons a rest ih =>
      rcases List.mem_cons.mp hl with heq | hmem
      · subst heq
        simp only [collectLines, h]
      · simp only [collectLines]
        cases hp : parse12 a with
        | none => rfl
        | some v => rw [ih hmem]; rfl

/-- C10: the daily multi-time dialog step is all-or-nothing: if any
    non-empty line fails to parse as a 12-hour AM/PM time, the user state
    is left completely unchanged (no times recorded, same step);
    when every non-empty line parses, exactly those lines are stored and
    the dialog advances to the message step. -/
theorem daily_multi_all_or_nothing (text : Str) (ud : UserData) :
    ((∃ l ∈ splitLinesNonEmpty text, parse12 l = none) →
      dailyMultiStep text ud = ud)
    ∧ ((∀ l ∈ splitLinesNonEmpty text, (parse12 l).isSome) →
      dailyMultiStep text ud =
        { ud with dailyTimes := some (splitLinesNonEmpty text),
                  mode := stDailyMsg }) := by
  constructor
  · rintro ⟨l, hl, hp⟩
    unfold dailyMultiStep
    rw [collectLines_failure _ l hl hp]
  · intro h
    unfold dailyMultiStep
    rw [collectLines_all _ h]

/-- Witness for C10: `"10.00 AM\n25.00"` is rejected wholesale,
    `"10.00 AM\n01.30 PM"` is stored wholesale. -/
theorem daily_multi_all_or_nothing_witness :
    dailyMultiStep
        ('1' :: '0' :: '.' :: '0' :: '0' :: ' ' :: 'A' :: 'M' :: '\n' ::
          ['2', '5', '.', '0', '0'])
        ⟨stDailyMultiTime, none, none, none, none⟩ =
      ⟨stDailyMultiTime, none, none, none, none⟩
    ∧ dailyMultiStep
        ('1' :: '0' :: '.' :: '0' :: '0' :: ' ' :: 'A' :: 'M' :: '\n' ::
          ['0', '1', '.', '3', '0', ' ', 'P', 'M'])
        ⟨stDailyMultiTime, none, none, none, none⟩ =
      ⟨stDailyMsg, none, none, none,
        some [['1', '0', '.', '0', '0', ' ', 'A', 'M'],
              ['0', '1', '.', '3', '0', ' ', 'P', 'M']]⟩ := by
  constructor
  · exact (daily_multi_all_or_nothing _ _).1
      ⟨['2', '5', '.', '0', '0'], by decide, by decide⟩
  · have h := (daily_multi_all_or_nothing
      ('1' :: '0' :: '.' :: '0' :: '0' :: ' ' :: 'A' :: 'M' :: '\n' ::
        ['0', '1', '.', '3', '0', ' ', 'P', 'M'])
      ⟨stDailyMultiTime, none, none, none, none⟩).2 (by decide)
    rw [h]
    decide

/-! ## Claim C3: the one-shot firing callback completes the reminder -/

lemma setCompleted_mem_status (rid : Nat) (db : DB) :
    ∀ r ∈ (setCompleted rid db).reminders, r.id = rid → r.status = stCompleted := by
  intro r hr hid
  simp only [setCompleted, List.mem_map] at hr
  obtain ⟨r0, hr0, heq⟩ := hr
  by_cases h : r0.id = rid
  · rw [if_pos h] at heq
    rw [← heq]
  · rw [if_neg h] at heq
    rw [← heq] at hid
    exact absurd hid h

/-- C3: a one-shot fire whose payload carries reminder id `rid ≠ 0`
    (ids are assigned from 1 up) marks that reminder completed and removes
    every one of its trigger mappings, for delivery success and failure
    alike (`f` is arbitrary). -/
theorem fire_marks_completed (f : Bool) (j : Job) (s : Sys) (rid : Nat)
    (hrid : j.remId = some rid) (hnz : rid ≠ 0) :
    (∀ r ∈ (fireOnceStep f j s).db.reminders, r.id = rid → r.status = stCompleted)
    ∧ getJobs rid (fireOnceStep f j s).db = []
    ∧ (fireOnceStep f j s).db.reminders = (setCompleted rid s.db).reminders := by
  have hred : (fireOnceStep f j s).db = removeMapping rid (setCompleted rid s.db) := by
    unfold fireOnceStep sendReminder
    rw [hrid]
    simp [hnz]
  rw [hred]
  exact ⟨setCompleted_mem_status rid s.db, getJobs_removeMapping rid _, rfl⟩

/-- Witness for C3: create `"1m"` with repeat 2 (two armed fires at +60s
    and +120s), fire the first with delivery failing: the reminder is
    completed, its mappings are gone, and the +120s repeat is still
    armed. -/
theorem fire_marks_completed_witness :
    c3Job ∈ c3Sys.sch.jobs
    ∧ (∀ r ∈ (fireOnceStep false c3Job c3Sys).db.reminders,
        r.id = 1 → r.status = stCompleted)
    ∧ getJobs 1 (fireOnceStep false c3Job c3Sys).db = []
    ∧ (fireOnceStep false c3Job c3Sys).sch.jobs =
        [⟨1, Trigger.once 120, 9, ['h', 'i'], some 1⟩] := by
  have h := fire_marks_completed false c3Job c3Sys 1 rfl (by decide)
  exact ⟨by decide, h.1, h.2.1, by decide⟩

/-! ## Claim C4: recovery re-arms exactly the active reminders -/

lemma armDaily_effect (target : Nat) (msg : Str) (rid : Nat) (ts : List Str)
    (db : DB) (sch : Sched) :
    ∃ pairs jobs2,
      armDaily target msg rid ts db sch =
        ({ db with scheduledJobs := db.scheduledJobs ++ pairs },
         { jobs := sch.jobs ++ jobs2,
           nextJobId := sch.nextJobId + parsedPrefixLen ts })
      ∧ pairs.length = parsedPrefixLen ts
      ∧ jobs2.length = parsedPrefixLen ts
      ∧ (∀ p ∈ pairs, p.1 = rid)
      ∧ (∀ j ∈ jobs2, j.remId = none ∧ ∃ h mi, j.trigger = Trigger.cron h mi) := by
  induction ts generalizing db sch with
  | nil =>
      exact ⟨[], [], by simp [armDaily, parsedPrefixLen], by simp [parsedPrefixLen],
        by simp [parsedPrefixLen], by simp, by simp⟩
  | cons t ts ih =>
      cases hp : parse12 t with
      | none =>
          refine ⟨[], [], ?_, by simp [parsedPrefixLen, hp], by simp [parsedPrefixLen, hp],
            by simp, by simp⟩
          simp [armDaily, hp, parsedPrefixLen]
      | some v =>
          obtain ⟨h, mi⟩ := v
          obtain ⟨pairs', jobs2', heq, hlen, hlen2, hfst, hjobs⟩ :=
            ih (addJobMap rid sch.nextJobId db)
              ⟨sch.jobs ++ [⟨sch.nextJobId, Trigger.cron h mi, target, msg, none⟩],
               sch.nextJobId + 1⟩
          refine ⟨(rid, sch.nextJobId) :: pairs',
            ⟨sch.nextJobId, Trigger.cron h mi, target, msg, none⟩ :: jobs2', ?_, ?_, ?_, ?_, ?_⟩
          · rw [show armDaily target msg rid (t :: ts) db sch =
              (match parse12 t with
               | none => (db, sch)
               | some (h, mi) =>
                   armDaily target msg rid ts
                     (addJobMap rid (addJob (Trigger.cron h mi) target msg none sch).2 db)
                     (addJob (Trigger.cron h mi) target msg none sch).1) from rfl, hp]
            show armDaily target msg rid ts (addJobMap rid sch.nextJobId db)
              ⟨sch.jobs ++ [⟨sch.nextJobId, Trigger.cron h mi, target, msg, none⟩],
               sch.nextJobId + 1⟩ = _
            rw [heq]
            simp only [addJobMap, parsedPrefixLen, hp, Option.isSome_some, if_true,
              List.append_assoc, List.singleton_append, Prod.mk.injEq]
            refine ⟨trivial, ?_⟩
            congr 1
            omega
          · simp [hlen, parsedPrefixLen, hp]
          · simp [hlen2, parsedPrefixLen, hp]
          · intro p hp'
            rcases List.mem_cons.mp hp' with hx | hx
            · rw [hx]
            · exact hfst p hx
          · intro j hj
            rcases List.mem_cons.mp hj with hx | hx
            · rw [hx]
              exact ⟨rfl, h, mi, rfl⟩
            · exact hjobs j hx

lemma reloadRow_effect (now : Nat) (r : Reminder) (db : DB) (sch : Sched) :
    ∃ pairs jobs2,
      reloadRow now r db sch =
        ({ db with scheduledJobs := db.scheduledJobs ++ pairs },
         { jobs := sch.jobs ++ jobs2, nextJobId := sch.nextJobId + armCount now r })
      ∧ pairs.length = armCount now r
      ∧ jobs2.length = armCount now r
      ∧ (∀ p ∈ pairs, p.1 = r.id)
      ∧ (∀ j ∈ jobs2,
          (j.remId = some r.id ∧ r.scheduleType ≠ stDaily ∧
            ∃ rt, j.trigger = Trigger.once rt)
          ∨ (j.remId = none ∧ ∃ h mi, j.trigger = Trigger.cron h mi)) := by
  unfold reloadRow armCount
  by_cases h1 : r.scheduleType = stMinHour
  · rw [if_pos h1, if_pos h1]
    cases hs : relSeconds r.timeValue with
    | none => exact ⟨[], [], by simp, by simp, by simp, by simp, by simp⟩
    | some secs =>
        refine ⟨[(r.id, sch.nextJobId)],
          [⟨sch.nextJobId, Trigger.once ((now : Int) + secs), r.userId, r.message,
            some r.id⟩], ?_, by simp, by simp, by simp, ?_⟩
        · simp [addJob, addJobMap]
        · intro j hj
          rw [List.mem_singleton.mp hj]
          exact Or.inl ⟨rfl, by rw [h1]; decide, (now : Int) + secs, rfl⟩
  · rw [if_neg h1, if_neg h1]
    by_cases h2 : r.scheduleType = stDate
    · rw [if_pos h2, if_pos h2]
      cases hd : dateParse r.timeValue with
      | none => exact ⟨[], [], by simp, by simp, by simp, by simp, by simp⟩
      | some dt =>
          by_cases hn : now < dt
          · refine ⟨[(r.id, sch.nextJobId)],
              [⟨sch.nextJobId, Trigger.once (dt : Int), r.userId, r.message,
                some r.id⟩], ?_, by simp [hn], by simp [hn], by simp, ?_⟩
            · simp [addJob, addJobMap, hn]
            · intro j hj
              rw [List.mem_singleton.mp hj]
              exact Or.inl ⟨rfl, by rw [h2]; decide, (dt : Int), rfl⟩
          · exact ⟨[], [], by simp [hn], by simp [hn], by simp [hn], by simp, by simp⟩
    · rw [if_neg h2, if_neg h2]
      by_cases h3 : r.scheduleType = stDaily
      · rw [if_pos h3, if_pos h3]
        obtain ⟨pairs, jobs2, heq, hlen, hlen2, hfst, hjobs⟩ :=
          armDaily_effect r.userId r.message r.id (r.timeValue.splitOn ';') db sch
        exact ⟨pairs, jobs2, heq, hlen, hlen2, hfst, fun j hj => Or.inr (hjobs j hj)⟩
      · rw [if_neg h3, if_neg h3]
        exact ⟨[], [], by simp, by simp, by simp, by simp, by simp⟩

lemma getJobs_append_pairs (rid rid0 : Nat) (db : DB) (pairs : List (Nat × Nat))
    (hall : ∀ p ∈ pairs, p.1 = rid0) :
    getJobs rid { db with scheduledJobs := db.scheduledJobs ++ pairs } =
      getJobs rid db ++ (if rid0 = rid then pairs.map fun p => p.2 else []) := by
  simp only [getJobs, List.filterMap_append]
  congr 1
  induction pairs with
  | nil => simp
  | cons p ps ih =>
      have hp := hall p (List.mem_cons_self p ps)
      have hrec := ih fun q hq => hall q (List.mem_cons_of_mem p hq)
      by_cases he : rid0 = rid
      · rw [if_pos he] at hrec ⊢
        rw [List.filterMap_cons, List.map_cons]
        rw [show (if p.1 = rid then some p.2 else none) = some p.2 from by
          rw [hp, he]; simp]
        rw [hrec]
      · rw [if_neg he] at hrec ⊢
        rw [List.filterMap_cons]
        rw [show (if p.1 = rid then some p.2 else none) = none from by
          rw [hp]; simp [he]]
        rw [hrec]

lemma reloadRows_effect (now : Nat) (rows : List Reminder) (db : DB) (sch : Sched) :
    (reloadRows now rows (db, sch)).1.users = db.users
    ∧ (reloadRows now rows (db, sch)).1.reminders = db.reminders
    ∧ (reloadRows now rows (db, sch)).1.nextId = db.nextId
    ∧ (∀ rid, (getJobs rid (reloadRows now rows (db, sch)).1).length =
        (getJobs rid db).length +
          ((rows.filter fun x => decide (x.id = rid)).map (armCount now)).sum)
    ∧ (∀ rid, (rows.filter fun x => decide (x.id = rid)) = [] →
        getJobs rid (reloadRows now rows (db, sch)).1 = getJobs rid db)
    ∧ (reloadRows now rows (db, sch)).2.jobs.length =
        sch.jobs.length + (rows.map (armCount now)).sum
    ∧ (∀ j ∈ (reloadRows now rows (db, sch)).2.jobs, j ∈ sch.jobs
        ∨ (∃ r ∈ rows, j.remId = some r.id ∧ r.scheduleType ≠ stDaily ∧
            ∃ rt, j.trigger = Trigger.once rt)
        ∨ (j.remId = none ∧ ∃ h mi, j.trigger = Trigger.cron h mi)) := by
  induction rows generalizing db sch with
  | nil =>
      refine ⟨rfl, rfl, rfl, ?_, ?_, ?_, ?_⟩
      · intro rid
        simp [reloadRows]
      · intro rid hfil
        rfl
      · simp [reloadRows]
      · intro j hj
        exact Or.inl hj
  | cons r rows' ih =>
      obtain ⟨pairs, jobs2, heq, hlen, hlen2, hfst, hjobs⟩ := reloadRow_effect now r db sch
      have hstep : reloadRows now (r :: rows') (db, sch) =
          reloadRows now rows'
            ({ db with scheduledJobs := db.scheduledJobs ++ pairs },
             { jobs := sch.jobs ++ jobs2,
               nextJobId := sch.nextJobId + armCount now r }) := by
        unfold reloadRows
        rw [List.foldl_cons]
        show reloadRows now rows' (reloadRow now r db sch) = _
        rw [heq]
        rfl
      obtain ⟨ihu, ihr, ihn, ihg, ihe, ihl, ihm⟩ := ih
        { db with scheduledJobs := db.scheduledJobs ++ pairs }
        { jobs := sch.jobs ++ jobs2, nextJobId := sch.nextJobId + armCount now r }
      rw [hstep]
      refine ⟨ihu, ihr, ihn, ?_, ?_, ?_, ?_⟩
      · intro rid
        rw [ihg rid, getJobs_append_pairs rid r.id db pairs hfst]
        rw [List.filter_cons]
        by_cases he : r.id = rid
        · rw [if_pos (by simp [he])]
          simp [he, hlen, Nat.add_assoc, Nat.add_comm (pairs.map fun p => p.2).length]
        · rw [if_neg (by simp [he])]
          simp [he]
      · intro rid hfil
        rw [List.filter_cons] at hfil
        by_cases he : r.id = rid
        · rw [if_pos (by simp [he])] at hfil
          exact absurd hfil (by simp)
        · rw [if_neg (by simp [he])] at hfil
          rw [ihe rid hfil, getJobs_append_pairs rid r.id db pairs hfst, if_neg he,
            List.append_nil]
      · rw [ihl]
        simp only [List.length_append, List.map_cons, List.sum_cons, hlen2]
        omega
      · intro j hj
        rcases ihm j hj with hin | hshape | hshape
        · rcases List.mem_append.mp hin with hin' | hin'
          · exact Or.inl hin'
          · rcases hjobs j hin' with hone | hcr
            · exact Or.inr (Or.inl ⟨r, List.mem_cons_self r rows', hone⟩)
            · exact Or.inr (Or.inr hcr)
        · obtain ⟨r0, hr0, hrest⟩ := hshape
          exact Or.inr (Or.inl ⟨r0, List.mem_cons_of_mem r hr0, hrest⟩)
        · exact Or.inr (Or.inr hshape)

lemma filter_id_singleton_of_nodup {rows : List Reminder}
    (hnd : (rows.map fun x => x.id).Nodup) {r : Reminder} (hr : r ∈ rows) :
    (rows.filter fun x => decide (x.id = r.id)) = [r] := by
  induction rows with
  | nil => cases hr
  | cons a rows' ih =>
      rw [List.map_cons, List.nodup_cons] at hnd
      rcases List.mem_cons.mp hr with heq | hmem
      · subst heq
        rw [List.filter_cons_of_pos (by simp)]
        have hnil : (rows'.filter fun x => decide (x.id = r.id)) = [] := by
          refine List.filter_eq_nil_iff.mpr fun x hx => ?_
          simp only [decide_eq_true_eq]
          intro hcontra
          exact hnd.1 (hcontra ▸ List.mem_map_of_mem (fun y => y.id) hx)
        rw [hnil]
      · have hne : a.id ≠ r.id := by
          intro hcontra
          exact hnd.1 (hcontra ▸ List.mem_map_of_mem (fun y => y.id) hmem)
        rw [List.filter_cons_of_neg (by simp [hne])]
        exact ih hnd.2 hmem

lemma parsedPrefixLen_all (ts : List Str) (h : ∀ t ∈ ts, (parse12 t).isSome) :
    parsedPrefixLen ts = ts.length := by
  induction ts with
  | nil => rfl
  | cons t ts ih =>
      rw [show parsedPrefixLen (t :: ts) =
        if (parse12 t).isSome then parsedPrefixLen ts + 1 else 0 from rfl]
      rw [if_pos (h t (List.mem_cons_self t ts)),
        ih fun x hx => h x (List.mem_cons_of_mem t hx), List.length_cons]

/-- C4: recovery leaves the reminders table itself untouched and re-arms
    only `active` rows: each active reminder's trigger-mapping count grows
    by exactly its arming count (1 for a well-formed relative; 1 for a
    future absolute and 0 for a past one; N for a daily listing N times),
    non-active rows' mappings are untouched, and every newly armed job is
    a one-shot carrying a reminder id or a recurring cron job carrying
    none. -/
theorem recovery_spec (now : Nat) (s : Sys)
    (hnd : (s.db.reminders.map fun r => r.id).Nodup) :
    ((reloadScheduledJobs now s).db.reminders = s.db.reminders
      ∧ (reloadScheduledJobs now s).db.users = s.db.users
      ∧ (reloadScheduledJobs now s).db.nextId = s.db.nextId)
    ∧ (∀ r ∈ s.db.reminders, r.status = stActive →
        (getJobs r.id (reloadScheduledJobs now s).db).length =
          (getJobs r.id s.db).length + armCount now r)
    ∧ (∀ r ∈ s.db.reminders, r.status ≠ stActive →
        getJobs r.id (reloadScheduledJobs now s).db = getJobs r.id s.db)
    ∧ (∀ j ∈ (reloadScheduledJobs now s).sch.jobs, j ∈ s.sch.jobs
        ∨ ((∃ rid, j.remId = some rid) ∧ ∃ rt, j.trigger = Trigger.once rt)
        ∨ (j.remId = none ∧ ∃ h mi, j.trigger = Trigger.cron h mi))
    ∧ (∀ r : Reminder, r.scheduleType = stMinHour →
        (relSeconds r.timeValue).isSome → armCount now r = 1)
    ∧ (∀ (r : Reminder) (dt : Nat), r.scheduleType = stDate →
        dateParse r.timeValue = some dt →
        armCount now r = if now < dt then 1 else 0)
    ∧ (∀ r : Reminder, r.scheduleType = stDaily →
        (∀ t ∈ r.timeValue.splitOn ';', (parse12 t).isSome) →
        armCount now r = (r.timeValue.splitOn ';').length) := by
  have hrows : ∀ x ∈ (s.db.reminders.filter fun r =>
      if r.status = stActive then true else false), x ∈ s.db.reminders ∧
        x.status = stActive := by
    intro x hx
    rw [List.mem_filter] at hx
    refine ⟨hx.1, ?_⟩
    by_cases h : x.status = stActive
    · exact h
    · simp [h] at hx
  have hsub : ((s.db.reminders.filter fun r =>
      if r.status = stActive then true else false).map fun x => x.id).Nodup :=
    (hnd.sublist (List.Sublist.map _ (List.filter_sublist _)))
  obtain ⟨hu, hr, hn, hg, he, hl, hm⟩ := reloadRows_effect now
    (s.db.reminders.filter fun r => if r.status = stActive then true else false)
    s.db s.sch
  refine ⟨⟨hr, hu, hn⟩, ?_, ?_, ?_, ?_, ?_, ?_⟩
  case refine_3 =>
    intro j hj
    rcases hm j hj with hin | hshape | hshape
    · exact Or.inl hin
    · obtain ⟨r0, _, hrid, _, honce⟩ := hshape
      exact Or.inr (Or.inl ⟨⟨r0.id, hrid⟩, honce⟩)
    · exact Or.inr (Or.inr hshape)
  · intro r hrm hact
    have hmem : r ∈ (s.db.reminders.filter fun r =>
        if r.status = stActive then true else false) := by
      rw [List.mem_filter]
      exact ⟨hrm, by simp [hact]⟩
    rw [show (reloadScheduledJobs now s).db =
      (reloadRows now (s.db.reminders.filter fun r =>
        if r.status = stActive then true else false) (s.db, s.sch)).1 from rfl]
    rw [hg r.id, filter_id_singleton_of_nodup hsub hmem]
    simp
  · intro r hrm hact
    have hfil : ((s.db.reminders.filter fun r =>
        if r.status = stActive then true else false).filter
          fun x => decide (x.id = r.id)) = [] := by
      refine List.filter_eq_nil_iff.mpr fun x hx => ?_
      obtain ⟨hxm, hxa⟩ := hrows x hx
      simp only [decide_eq_true_eq]
      intro hcontra
      have hxr : x = r :=
        List.inj_on_of_nodup_map hnd hxm hrm hcontra
      rw [hxr] at hxa
      exact hact hxa
    exact he r.id hfil
  · intro r h1 h2
    simp [armCount, h1, h2]
  · intro r dt h2 hd
    simp [armCount, h2, hd, show (stDate : Str) ≠ stMinHour from by decide]
  · intro r h3 hall
    simp [armCount, h3, parsedPrefixLen_all _ hall,
      show (stDaily : Str) ≠ stMinHour from by decide,
      show (stDaily : Str) ≠ stDate from by decide]

/-- Witness for C4 on `c4Sys` at `now` = 63,800,000,000 s (between the
    two absolute dates): the reminders table is unchanged, the active
    relative gains 1 mapping, the two-time daily gains 2, the completed
    row stays unmapped, the past absolute gains none, the future absolute
    gains 1. -/
theorem recovery_spec_witness :
    (reloadScheduledJobs 63800000000 c4Sys).db.reminders = c4Sys.db.reminders
    ∧ (getJobs 1 (reloadScheduledJobs 63800000000 c4Sys).db).length = 1
    ∧ (getJobs 2 (reloadScheduledJobs 63800000000 c4Sys).db).length = 2
    ∧ getJobs 3 (reloadScheduledJobs 63800000000 c4Sys).db = []
    ∧ (getJobs 4 (reloadScheduledJobs 63800000000 c4Sys).db).length = 0
    ∧ (getJobs 5 (reloadScheduledJobs 63800000000 c4Sys).db).length = 1 := by
  have h := recovery_spec 63800000000 c4Sys (by decide)
  refine ⟨h.1.1, ?_, ?_, ?_, ?_, ?_⟩
  · rw [h.2.1 ⟨1, 7, ['a'], stMinHour, ['5', 'm'], 0, stActive⟩ (by decide) (by decide)]
    decide
  · rw [h.2.1 ⟨2, 7, ['b'], stDaily, "10.00 AM;01.30 PM".toList, 0, stActive⟩
      (by decide) (by decide)]
    decide
  · rw [h.2.2.1 ⟨3, 7, ['c'], stMinHour, ['2', 'm'], 0, stCompleted⟩
      (by decide) (by decide)]
    decide
  · rw [h.2.1 ⟨4, 8, ['d'], stDate, "15/11/20 10.15 PM".toList, 0, stActive⟩
      (by decide) (by decide)]
    decide
  · rw [h.2.1 ⟨5, 8, ['e'], stDate, "15/11/25 10.15 PM".toList, 0, stActive⟩
      (by decide) (by decide)]
    decide

/-! ## Claim C8: 12-hour time parsing — completeness over the format -/

lemma parseHour12_render (h : Nat) (hcs : Str) (hh : HourRep h hcs) (r : Str) :
    parseHour12 (hcs ++ '.' :: r) = some (h, '.' :: r) := by
  rcases hh with ⟨h1, h9, he⟩ | ⟨h1, h9, he⟩ | ⟨h10, h12, he⟩ <;> subst he
  · interval_cases h <;> rfl
  · interval_cases h <;> rfl
  · interval_cases h <;> rfl

lemma parseMin_cons_nondigit (d c : Char) (r : Str) (hd : isDigitC d = true)
    (hc : isDigitC c = false) :
    parseMin (d :: c :: r) = some (digitVal d, c :: r) := by
  rw [show parseMin (d :: c :: r) =
    (if isDigit05 d && isDigitC c then some (10 * digitVal d + digitVal c, r)
     else if isDigitC d then some (digitVal d, c :: r) else none) from rfl]
  rw [hc, hd]
  simp

lemma parseMin_cons_two (d1 d2 : Char) (r : Str) (h1 : isDigit05 d1 = true)
    (h2 : isDigitC d2 = true) :
    parseMin (d1 :: d2 :: r) = some (10 * digitVal d1 + digitVal d2, r) := by
  rw [show parseMin (d1 :: d2 :: r) =
    (if isDigit05 d1 && isDigitC d2 then some (10 * digitVal d1 + digitVal d2, r)
     else if isDigitC d1 then some (digitVal d1, d2 :: r) else none) from rfl]
  rw [h1, h2]
  simp

lemma parseMin_render (m : Nat) (mcs : Str) (hm : MinRep m mcs) (c : Char) (r : Str)
    (hc : isSpaceC c = true) :
    parseMin (mcs ++ c :: r) = some (m, c :: r) := by
  have hcd : isDigitC c = false := isSpaceC_not_digit hc
  rcases hm with ⟨h9, he⟩ | ⟨h59, he⟩ <;> subst he
  · rw [List.singleton_append,
      parseMin_cons_nondigit (digitChar m) c r (isDigitC_digitChar h9) hcd,
      digitVal_digitChar h9]
  · rw [show [digitChar (m / 10), digitChar (m % 10)] ++ c :: r =
      digitChar (m / 10) :: digitChar (m % 10) :: c :: r from rfl]
    rw [parseMin_cons_two (digitChar (m / 10)) (digitChar (m % 10)) (c :: r)
      (isDigit05_digitChar (by omega)) (isDigitC_digitChar (by omega))]
    rw [digitVal_digitChar (by omega), digitVal_digitChar (by omega)]
    rw [Nat.div_add_mod m 10]

lemma dropWhile_space_append (l m : Str) (hl : ∀ c ∈ l, isSpaceC c = true)
    (hm : ∀ c, m.head? = some c → isSpaceC c = false) :
    ((l ++ m).dropWhile fun c => isSpaceC c) = m := by
  induction l with
  | nil =>
      cases m with
      | nil => rfl
      | cons c t => exact List.dropWhile_cons_of_neg (by simp [hm c rfl])
  | cons c l ih =>
      rw [List.cons_append,
        List.dropWhile_cons_of_pos (by simp [hl c (List.mem_cons_self c l)])]
      exact ih fun d hd => hl d (List.mem_cons_of_mem c hd)

lemma merChars_head_not_space (pm lc1 lc2 : Bool) :
    ∀ c, (merChars pm lc1 lc2).head? = some c → isSpaceC c = false := by
  cases pm <;> cases lc1 <;> cases lc2 <;> intro c hc <;>
    simp only [merChars, Bool.false_eq_true, if_false, if_true, List.head?_cons,
      Option.some.injEq] at hc <;> subst hc <;> decide

lemma meridiem_merChars (pm lc1 lc2 : Bool) :
    meridiem (merChars pm lc1 lc2) = some pm := by
  cases pm <;> cases lc1 <;> cases lc2 <;> rfl

lemma parse12_complete (H M : Nat) (cs : Str) (hv : Is12Val cs H M) :
    parse12 cs = some (H, M) := by
  obtain ⟨h, m, hcs, mcs, sp, pm, lc1, lc2, hh, hm, hsp, hspc, he, hH, hM⟩ := hv
  subst he hH hM
  rcases sp with _ | ⟨c0, sptail⟩
  · exact absurd rfl hsp
  have hc0 : isSpaceC c0 = true := hspc c0 (List.mem_cons_self c0 sptail)
  have h1 := parseHour12_render h hcs hh
    (mcs ++ ((c0 :: sptail) ++ merChars pm lc1 lc2))
  have h2 := parseMin_render M mcs hm c0 (sptail ++ merChars pm lc1 lc2) hc0
  have h3 : parseSpaces1 (c0 :: (sptail ++ merChars pm lc1 lc2)) =
      some (merChars pm lc1 lc2) := by
    rw [show parseSpaces1 (c0 :: (sptail ++ merChars pm lc1 lc2)) =
      if isSpaceC c0 then
        some ((sptail ++ merChars pm lc1 lc2).dropWhile fun x => isSpaceC x)
      else none from rfl, hc0]
    simp only [if_true]
    rw [dropWhile_space_append sptail (merChars pm lc1 lc2)
      (fun d hd => hspc d (List.mem_cons_of_mem c0 hd))
      (merChars_head_not_space pm lc1 lc2)]
  rw [show mcs ++ (c0 :: sptail) ++ merChars pm lc1 lc2 =
    mcs ++ ((c0 :: sptail) ++ merChars pm lc1 lc2) from List.append_assoc _ _ _]
  unfold parse12
  rw [h1]
  simp only [Option.some_bind]
  rw [show parse12AfterHour h ('.' :: (mcs ++ ((c0 :: sptail) ++ merChars pm lc1 lc2))) =
    (parseMin (mcs ++ ((c0 :: sptail) ++ merChars pm lc1 lc2))).bind
      fun q => parse12AfterMin h q.1 q.2 from rfl]
  rw [show mcs ++ ((c0 :: sptail) ++ merChars pm lc1 lc2) =
    mcs ++ (c0 :: (sptail ++ merChars pm lc1 lc2)) from rfl]
  rw [h2]
  simp only [Option.some_bind]
  unfold parse12AfterMin
  rw [h3]
  simp only [Option.some_bind]
  rw [meridiem_merChars pm lc1 lc2]
  rfl

/-! ## Claim C8: 12-hour time parsing — soundness -/

lemma parseHour12_sound {cs : Str} {h : Nat} {r : Str}
    (hp : parseHour12 cs = some (h, r)) :
    ∃ hcs, HourRep h hcs ∧ cs = hcs ++ r := by
  rcases cs with _ | ⟨c1, _ | ⟨c2, rest⟩⟩
  · simp [parseHour12] at hp
  · rw [show parseHour12 [c1] =
      if isDigit19 c1 then some (digitVal c1, []) else none from rfl] at hp
    by_cases hd : isDigit19 c1 = true
    · rw [if_pos hd] at hp
      simp only [Option.some.injEq, Prod.mk.injEq] at hp
      obtain ⟨hh, hr⟩ := hp
      subst hh
      subst hr
      exact ⟨[c1], Or.inl ⟨isDigit19_pos hd,
        digitVal_le_nine (isDigit19_to_isDigitC hd),
        by rw [digitChar_digitVal (isDigit19_to_isDigitC hd)]⟩, by simp⟩
    · rw [if_neg hd] at hp
      exact absurd hp (by simp)
  · rw [show parseHour12 (c1 :: c2 :: rest) =
      (if c1 == '1' && isDigit02 c2 then some (10 + digitVal c2, rest)
       else if c1 == '0' && isDigit19 c2 then some (digitVal c2, rest)
       else if isDigit19 c1 then some (digitVal c1, c2 :: rest)
       else none) from rfl] at hp
    by_cases b1 : (c1 == '1' && isDigit02 c2) = true
    · rw [if_pos b1] at hp
      simp only [Option.some.injEq, Prod.mk.injEq] at hp
      obtain ⟨hh, hr⟩ := hp
      subst hh
      subst hr
      simp only [Bool.and_eq_true, beq_iff_eq] at b1
      obtain ⟨hc1, hc2⟩ := b1
      subst hc1
      have hle := isDigit02_le2 hc2
      refine ⟨['1', c2], Or.inr (Or.inr ⟨by omega, by omega, ?_⟩), by simp⟩
      rw [show 10 + digitVal c2 - 10 = digitVal c2 from by omega,
        digitChar_digitVal (isDigit02_to_isDigitC hc2)]
    · rw [if_neg b1] at hp
      by_cases b2 : (c1 == '0' && isDigit19 c2) = true
      · rw [if_pos b2] at hp
        simp only [Option.some.injEq, Prod.mk.injEq] at hp
        obtain ⟨hh, hr⟩ := hp
        subst hh
        subst hr
        simp only [Bool.and_eq_true, beq_iff_eq] at b2
        obtain ⟨hc1, hc2⟩ := b2
        subst hc1
        refine ⟨['0', c2], Or.inr (Or.inl ⟨isDigit19_pos hc2,
          digitVal_le_nine (isDigit19_to_isDigitC hc2), ?_⟩), by simp⟩
        rw [digitChar_digitVal (isDigit19_to_isDigitC hc2)]
      · rw [if_neg b2] at hp
        by_cases b3 : isDigit19 c1 = true
        · rw [if_pos b3] at hp
          simp only [Option.some.injEq, Prod.mk.injEq] at hp
          obtain ⟨hh, hr⟩ := hp
          subst hh
          subst hr
          exact ⟨[c1], Or.inl ⟨isDigit19_pos b3,
            digitVal_le_nine (isDigit19_to_isDigitC b3),
            by rw [digitChar_digitVal (isDigit19_to_isDigitC b3)]⟩, by simp⟩
        · rw [if_neg b3] at hp
          exact absurd hp (by simp)

lemma parseMin_sound {cs : Str} {m : Nat} {r : Str}
    (hp : parseMin cs = some (m, r)) :
    ∃ mcs, MinRep m mcs ∧ cs = mcs ++ r := by
  rcases cs with _ | ⟨c1, _ | ⟨c2, rest⟩⟩
  · simp [parseMin] at hp
  · rw [show parseMin [c1] =
      if isDigitC c1 then some (digitVal c1, []) else none from rfl] at hp
    by_cases hd : isDigitC c1 = true
    · rw [if_pos hd] at hp
      simp only [Option.some.injEq, Prod.mk.injEq] at hp
      obtain ⟨hh, hr⟩ := hp
      subst hh
      subst hr
      exact ⟨[c1], Or.inl ⟨digitVal_le_nine hd, by rw [digitChar_digitVal hd]⟩,
        by simp⟩
    · rw [if_neg hd] at hp
      exact absurd hp (by simp)
  · rw [show parseMin (c1 :: c2 :: rest) =
      (if isDigit05 c1 && isDigitC c2 then
        some (10 * digitVal c1 + digitVal c2, rest)
       else if isDigitC c1 then some (digitVal c1, c2 :: rest)
       else none) from rfl] at hp
    by_cases b1 : (isDigit05 c1 && isDigitC c2) = true
    · rw [if_pos b1] at hp
      simp only [Option.some.injEq, Prod.mk.injEq] at hp
      obtain ⟨hh, hr⟩ := hp
      subst hh
      subst hr
      simp only [Bool.and_eq_true] at b1
      obtain ⟨hc1, hc2⟩ := b1
      have hle1 := isDigit05_le5 hc1
      have hle2 := digitVal_le_nine hc2
      refine ⟨[c1, c2], Or.inr ⟨by omega, ?_⟩, by simp⟩
      have hdiv : (10 * digitVal c1 + digitVal c2) / 10 = digitVal c1 := by omega
      have hmod : (10 * digitVal c1 + digitVal c2) % 10 = digitVal c2 := by omega
      rw [hdiv, hmod, digitChar_digitVal (isDigit05_to_isDigitC hc1),
        digitChar_digitVal hc2]
    · rw [if_neg b1] at hp
      by_cases b2 : isDigitC c1 = true
      · rw [if_pos b2] at hp
        simp only [Option.some.injEq, Prod.mk.injEq] at hp
        obtain ⟨hh, hr⟩ := hp
        subst hh
        subst hr
        exact ⟨[c1], Or.inl ⟨digitVal_le_nine b2, by rw [digitChar_digitVal b2]⟩,
          by simp⟩
      · rw [if_neg b2] at hp
        exact absurd hp (by simp)

lemma parseSpaces1_sound {l r : Str} (hp : parseSpaces1 l = some r) :
    ∃ sp, sp ≠ [] ∧ (∀ c ∈ sp, isSpaceC c = true) ∧ l = sp ++ r := by
  rcases l with _ | ⟨c, rest⟩
  · simp [parseSpaces1] at hp
  · rw [show parseSpaces1 (c :: rest) =
      if isSpaceC c then some (rest.dropWhile fun x => isSpaceC x) else none
      from rfl] at hp
    by_cases hc : isSpaceC c = true
    · rw [if_pos hc] at hp
      simp only [Option.some.injEq] at hp
      refine ⟨c :: rest.takeWhile (fun x => isSpaceC x), by simp, ?_, ?_⟩
      · intro d hd
        rcases List.mem_cons.mp hd with he | hmem
        · subst he
          exact hc
        · exact List.mem_takeWhile_imp hmem
      · rw [List.cons_append, ← hp, List.takeWhile_append_dropWhile]
    · rw [if_neg hc] at hp
      exact absurd hp (by simp)

lemma meridiem_sound {l : Str} {pm : Bool} (hp : meridiem l = some pm) :
    ∃ lc1 lc2, l = merChars pm lc1 lc2 := by
  rcases l with _ | ⟨c1, _ | ⟨c2, _ | ⟨c3, t⟩⟩⟩
  · simp [meridiem] at hp
  · simp [meridiem] at hp
  · rw [show meridiem [c1, c2] =
      (if (c1 == 'A' || c1 == 'a') && (c2 == 'M' || c2 == 'm') then some false
       else if (c1 == 'P' || c1 == 'p') && (c2 == 'M' || c2 == 'm') then some true
       else none) from rfl] at hp
    by_cases b1 : ((c1 == 'A' || c1 == 'a') && (c2 == 'M' || c2 == 'm')) = true
    · rw [if_pos b1] at hp
      simp only [Option.some.injEq] at hp
      subst hp
      simp only [Bool.and_eq_true, Bool.or_eq_true, beq_iff_eq] at b1
      obtain ⟨hc1, hc2⟩ := b1
      rcases hc1 with h1 | h1 <;> rcases hc2 with h2 | h2 <;> subst h1 <;> subst h2
      · exact ⟨false, false, rfl⟩
      · exact ⟨false, true, rfl⟩
      · exact ⟨true, false, rfl⟩
      · exact ⟨true, true, rfl⟩
    · rw [if_neg b1] at hp
      by_cases b2 : ((c1 == 'P' || c1 == 'p') && (c2 == 'M' || c2 == 'm')) = true
      · rw [if_pos b2] at hp
        simp only [Option.some.injEq] at hp
        subst hp
        simp only [Bool.and_eq_true, Bool.or_eq_true, beq_iff_eq] at b2
        obtain ⟨hc1, hc2⟩ := b2
        rcases hc1 with h1 | h1 <;> rcases hc2 with h2 | h2 <;> subst h1 <;> subst h2
        · exact ⟨false, false, rfl⟩
        · exact ⟨false, true, rfl⟩
        · exact ⟨true, false, rfl⟩
        · exact ⟨true, true, rfl⟩
      · rw [if_neg b2] at hp
        exact absurd hp (by simp)
  · simp [meridiem] at hp

lemma parse12_sound {cs : Str} {H M : Nat} (hp : parse12 cs = some (H, M)) :
    Is12Val cs H M := by
  unfold parse12 at hp
  cases hh : parseHour12 cs with
  | none =>
      rw [hh] at hp
      exact absurd hp (by simp)
  | some a =>
      obtain ⟨h, r1⟩ := a
      rw [hh] at hp
      simp only [Option.some_bind] at hp
      unfold parse12AfterHour at hp
      split at hp
      case h_2 => exact absurd hp (by simp)
      case h_1 =>
        rename_i r2
        cases hmin : parseMin r2 with
        | none =>
            rw [hmin] at hp
            exact absurd hp (by simp)
        | some b =>
            obtain ⟨m, r3⟩ := b
            rw [hmin] at hp
            simp only [Option.some_bind] at hp
            unfold parse12AfterMin at hp
            cases hsp : parseSpaces1 r3 with
            | none =>
                rw [hsp] at hp
                exact absurd hp (by simp)
            | some r4 =>
                rw [hsp] at hp
                simp only [Option.some_bind] at hp
                cases hmer : meridiem r4 with
                | none =>
                    rw [hmer] at hp
                    exact absurd hp (by simp)
                | some pm =>
                    rw [hmer] at hp
                    simp only [Option.map_some', Option.some.injEq,
                      Prod.mk.injEq] at hp
                    obtain ⟨hH, hM⟩ := hp
                    obtain ⟨hcs, hhr, hcseq⟩ := parseHour12_sound hh
                    obtain ⟨mcs, hmr, hr2⟩ := parseMin_sound hmin
                    obtain ⟨sp, hspne, hspc, hr3⟩ := parseSpaces1_sound hsp
                    obtain ⟨lc1, lc2, hr4⟩ := meridiem_sound hmer
                    refine ⟨h, m, hcs, mcs, sp, pm, lc1, lc2, hhr, hmr, hspne,
                      hspc, ?_, hH.symm, hM.symm⟩
                    rw [hcseq, hr2, hr3, hr4]
                    simp [List.append_assoc]

/-- C8: the time-string parser used by the daily and absolute dialogs
    accepts a string iff it is a 12-hour clock time with an explicit
    AM/PM meridiem (hour 1-12 with optional zero padding, dot, minute
    0-59 in one or two digits, whitespace, meridiem in either case), and
    then yields the correct 24-hour (hour, minute) pair; a string that
    fails to parse (no meridiem, 24-hour form, ...) leaves the dialog at
    the same step. -/
theorem time_parsing_12h :
    (∀ (cs : Str) (H M : Nat), parse12 cs = some (H, M) → Is12Val cs H M)
    ∧ (∀ (cs : Str) (H M : Nat), Is12Val cs H M → parse12 cs = some (H, M))
    ∧ (∀ (text : Str) (ud : UserData), parse12 text = none →
        dateTimeStep text ud = ud ∧ dailySingleStep text ud = ud) := by
  refine ⟨fun cs H M hp => parse12_sound hp,
    fun cs H M hv => parse12_complete H M cs hv, ?_⟩
  intro text ud hp
  constructor <;> simp [dateTimeStep, dailySingleStep, hp]

/-- Witness for C8: `"10.15 PM"` parses to (22, 15) and is in the format;
    the rendered `"09.05 am"` parses to (9, 5); the 24-hour `"22.30"` and
    the meridiem-less `"10.15"` are rejected and leave the dialog
    unchanged. -/
theorem time_parsing_12h_witness :
    Is12Val ("10.15 PM".toList) 22 15
    ∧ parse12 ("09.05 am".toList) = some (9, 5)
    ∧ parse12 ("22.30".toList) = none
    ∧ parse12 ("10.15".toList) = none
    ∧ dateTimeStep ("22.30".toList) ⟨stDateTime, none, none, none, none⟩ =
        ⟨stDateTime, none, none, none, none⟩ := by
  refine ⟨time_parsing_12h.1 _ 22 15 (by decide), ?_, by decide, by decide, ?_⟩
  · refine time_parsing_12h.2.1 _ 9 5
      ⟨9, 5, ['0', '9'], ['0', '5'], [' '], false, true, true,
        Or.inr (Or.inl ⟨by omega, by omega, rfl⟩), Or.inr ⟨by omega, rfl⟩,
        by decide, by decide, by decide, rfl, rfl⟩
  · exact (time_parsing_12h.2.2 ("22.30".toList) _ (by decide)).1

/-! ## Claim C6: daily reminders never complete — the invariant -/

lemma SysInv_create {s : Sys} (hI : SysInv s) {s' : Sys}
    {row : Reminder} {jobs2 : List Job}
    (hrowId : row.id = s.db.nextId)
    (hrowSt : row.status = stActive)
    (hrem : s'.db.reminders = s.db.reminders ++ [row])
    (hnext : s'.db.nextId = s.db.nextId + 1)
    (hjobs : s'.sch.jobs = s.sch.jobs ++ jobs2)
    (hshape : (row.scheduleType ≠ stDaily ∧ ∀ j ∈ jobs2,
        j.remId = some s.db.nextId ∧ ∃ rt, j.trigger = Trigger.once rt)
      ∨ (∀ j ∈ jobs2, j.remId = none ∧ ∃ h mi, j.trigger = Trigger.cron h mi)) :
    SysInv s' := by
  constructor
  · intro j hj h mi htr
    rw [hjobs] at hj
    rcases List.mem_append.mp hj with hold | hnew
    · exact hI.cronNone j hold h mi htr
    · rcases hshape with ⟨hnd, hsh⟩ | hsh
      · obtain ⟨-, rt, hrt⟩ := hsh j hnew
        rw [hrt] at htr
        exact absurd htr (by simp)
      · exact (hsh j hnew).1
  · intro j hj rid hrid r hr hid
    rw [hjobs] at hj
    rw [hrem] at hr
    rcases List.mem_append.mp hj with hjold | hjnew
    · rcases List.mem_append.mp hr with hrold | hrnew
      · exact hI.onceNotDaily j hjold rid hrid r hrold hid
      · have h1 := hI.jobIdBound j hjold rid hrid
        rw [List.mem_singleton.mp hrnew, hrowId] at hid
        intro _
        omega
    · rcases hshape with ⟨hnd, hsh⟩ | hsh
      · obtain ⟨hjr, -⟩ := hsh j hjnew
        rw [hjr] at hrid
        injection hrid with hrid
        rcases List.mem_append.mp hr with hrold | hrnew
        · have := hI.idBound r hrold
          rw [hid] at this
          intro _
          omega
        · rw [List.mem_singleton.mp hrnew]
          exact hnd
      · obtain ⟨hjr, -⟩ := hsh j hjnew
        rw [hjr] at hrid
        exact absurd hrid (by simp)
  · intro r hr hd
    rw [hrem] at hr
    rcases List.mem_append.mp hr with hrold | hrnew
    · exact hI.dailyActive r hrold hd
    · rw [List.mem_singleton.mp hrnew]
      exact hrowSt
  · intro r hr
    rw [hrem] at hr
    rw [hnext]
    rcases List.mem_append.mp hr with hrold | hrnew
    · have := hI.idBound r hrold
      omega
    · rw [List.mem_singleton.mp hrnew, hrowId]
      omega
  · intro j hj rid hrid
    rw [hjobs] at hj
    rw [hnext]
    rcases List.mem_append.mp hj with hjold | hjnew
    · have := hI.jobIdBound j hjold rid hrid
      omega
    · rcases hshape with ⟨-, hsh⟩ | hsh
      · obtain ⟨hjr, -⟩ := hsh j hjnew
        rw [hjr] at hrid
        injection hrid with hrid
        omega
      · obtain ⟨hjr, -⟩ := hsh j hjnew
        rw [hjr] at hrid
        exact absurd hrid (by simp)
  · rw [hrem, List.map_append]
    refine List.nodup_append.mpr ⟨hI.idsNodup, by simp, ?_⟩
    intro a ha hb
    simp only [List.map_cons, List.map_nil, List.mem_singleton] at hb
    obtain ⟨r0, hr0, hr0id⟩ := List.mem_map.mp ha
    have := hI.idBound r0 hr0
    rw [hr0id] at this
    rw [hb, hrowId] at this
    omega

lemma SysInv_shrink {s s' : Sys} (hI : SysInv s)
    (hrem : ∀ r ∈ s'.db.reminders, r ∈ s.db.reminders)
    (hremNd : (s'.db.reminders.map fun r => r.id).Nodup)
    (hnext : s'.db.nextId = s.db.nextId)
    (hjobs : ∀ j ∈ s'.sch.jobs, j ∈ s.sch.jobs) : SysInv s' := by
  constructor
  · intro j hj h mi htr
    exact hI.cronNone j (hjobs j hj) h mi htr
  · intro j hj rid hrid r hr hid
    exact hI.onceNotDaily j (hjobs j hj) rid hrid r (hrem r hr) hid
  · intro r hr hd
    exact hI.dailyActive r (hrem r hr) hd
  · intro r hr
    rw [hnext]
    exact hI.idBound r (hrem r hr)
  · intro j hj rid hrid
    rw [hnext]
    exact hI.jobIdBound j (hjobs j hj) rid hrid
  · exact hremNd

lemma inv_init : SysInv Sys.init := by
  refine ⟨?_, ?_, ?_, ?_, ?_, ?_⟩ <;>
    simp [Sys.init, DB.empty, Sched.empty]

lemma inv_repeatNo (now : Int) (target : Nat) (msg tval : Str) {s : Sys}
    (hI : SysInv s) : SysInv (repeatNoStep now target msg tval s) := by
  unfold repeatNoStep saveReminder
  cases hrel : relSeconds tval with
  | none =>
      refine SysInv_create hI rfl rfl rfl rfl ((List.append_nil s.sch.jobs).symm)
        (Or.inl ⟨(by decide : ¬(stMinHour = stDaily)), ?_⟩)
      intro j hj
      exact absurd hj (List.not_mem_nil j)
  | some secs =>
      refine SysInv_create hI rfl rfl rfl rfl rfl (Or.inl ⟨(by decide : ¬(stMinHour = stDaily)), ?_⟩)
      intro j hj
      rw [List.mem_singleton.mp hj]
      exact ⟨rfl, now + secs, rfl⟩

lemma inv_repeatCount (now : Int) (target : Nat) (msg tval : Str) (rep : Nat)
    {s : Sys} (hI : SysInv s) :
    SysInv (repeatCountStep now target msg tval rep s) := by
  unfold repeatCountStep saveReminder
  cases hrel : relSeconds tval with
  | none =>
      refine SysInv_create hI rfl rfl rfl rfl ((List.append_nil s.sch.jobs).symm)
        (Or.inl ⟨(by decide : ¬(stMinHour = stDaily)), ?_⟩)
      intro j hj
      exact absurd hj (List.not_mem_nil j)
  | some secs =>
      simp only [armRepeat_fold_effect]
      refine SysInv_create hI rfl rfl rfl rfl rfl (Or.inl ⟨(by decide : ¬(stMinHour = stDaily)), ?_⟩)
      intro j hj
      obtain ⟨i, -, hji⟩ := List.mem_map.mp hj
      rw [← hji]
      exact ⟨rfl, now + secs * ((i : Int) + 1), rfl⟩

lemma inv_dateFinalize (target : Nat) (msg dateStr timeStr : Str) {s : Sys}
    (hI : SysInv s) : SysInv (dateFinalizeStep target msg dateStr timeStr s) := by
  unfold dateFinalizeStep saveReminder
  cases hd : dateParse (dateStr ++ ' ' :: timeStr) with
  | none => exact hI
  | some dt =>
      refine SysInv_create hI rfl rfl rfl rfl rfl
        (Or.inl ⟨(by decide : ¬(stDate = stDaily)), ?_⟩)
      intro j hj
      rw [List.mem_singleton.mp hj]
      exact ⟨rfl, (dt : Int), rfl⟩

lemma inv_dailyFinalize (target : Nat) (msg : Str) (times : List Str) {s : Sys}
    (hI : SysInv s) : SysInv (dailyFinalizeStep target msg times s) := by
  show SysInv
    ⟨(armDaily target msg s.db.nextId times
        { users := s.db.users,
          reminders := s.db.reminders ++
            [{ id := s.db.nextId, userId := target, message := msg,
               scheduleType := stDaily,
               timeValue := List.intercalate [';'] times, repeatCount := 0,
               status := stActive }],
          scheduledJobs := s.db.scheduledJobs, nextId := s.db.nextId + 1 }
        s.sch).1,
     (armDaily target msg s.db.nextId times
        { users := s.db.users,
          reminders := s.db.reminders ++
            [{ id := s.db.nextId, userId := target, message := msg,
               scheduleType := stDaily,
               timeValue := List.intercalate [';'] times, repeatCount := 0,
               status := stActive }],
          scheduledJobs := s.db.scheduledJobs, nextId := s.db.nextId + 1 }
        s.sch).2⟩
  obtain ⟨pairs, jobs2, heq, -, -, -, hjobs⟩ :=
    armDaily_effect target msg s.db.nextId times
      { users := s.db.users,
        reminders := s.db.reminders ++
          [{ id := s.db.nextId, userId := target, message := msg,
             scheduleType := stDaily,
             timeValue := List.intercalate [';'] times, repeatCount := 0,
             status := stActive }],
        scheduledJobs := s.db.scheduledJobs, nextId := s.db.nextId + 1 }
      s.sch
  rw [heq]
  exact SysInv_create hI rfl rfl rfl rfl rfl (Or.inr hjobs)

lemma foldl_removeJob_subset (l : List Nat) (sch : Sched) :
    ∀ j ∈ (l.foldl (fun sc i => removeJob i sc) sch).jobs, j ∈ sch.jobs := by
  induction l generalizing sch with
  | nil => exact fun j hj => hj
  | cons a l ih =>
      intro j hj
      rw [List.foldl_cons] at hj
      have hmem := ih (removeJob a sch) j hj
      exact (List.mem_filter.mp hmem).1

lemma inv_fireOnce (f : Bool) (j : Job) {s : Sys} (hI : SysInv s)
    (hj : j ∈ s.sch.jobs) : SysInv (fireOnceStep f j s) := by
  have hjobs : ∀ j' ∈ (fireOnceStep f j s).sch.jobs, j' ∈ s.sch.jobs := by
    intro j' hj'
    exact (List.mem_filter.mp hj').1
  cases hrm : j.remId with
  | none =>
      have hdb : (fireOnceStep f j s).db = s.db := by
        unfold fireOnceStep sendReminder
        rw [hrm]
      refine SysInv_shrink hI ?_ ?_ ?_ hjobs
      · rw [hdb]
        exact fun r hr => hr
      · rw [hdb]
        exact hI.idsNodup
      · rw [hdb]
  | some rid =>
      by_cases hz : rid = 0
      · have hdb : (fireOnceStep f j s).db = s.db := by
          unfold fireOnceStep sendReminder
          rw [hrm]
          simp [hz]
        refine SysInv_shrink hI ?_ ?_ ?_ hjobs
        · rw [hdb]
          exact fun r hr => hr
        · rw [hdb]
          exact hI.idsNodup
        · rw [hdb]
      · have hdb : (fireOnceStep f j s).db =
            removeMapping rid (setCompleted rid s.db) := by
          unfold fireOnceStep sendReminder
          rw [hrm]
          simp [hz]
        have hnx : (fireOnceStep f j s).db.nextId = s.db.nextId := by
          rw [hdb]
          rfl
        constructor
        · intro j' hj' h mi htr
          exact hI.cronNone j' (hjobs j' hj') h mi htr
        · intro j' hj' rid' hrid' r hr hid
          rw [hdb] at hr
          simp only [removeMapping, setCompleted, List.mem_map] at hr
          obtain ⟨r0, hr0, hu⟩ := hr
          by_cases hc : r0.id = rid
          · rw [if_pos hc] at hu
            have hsty : r.scheduleType = r0.scheduleType := by rw [← hu]
            have hidr : r.id = r0.id := by rw [← hu]
            rw [hsty]
            exact hI.onceNotDaily j' (hjobs j' hj') rid' hrid' r0 hr0
              (by rw [← hidr]; exact hid)
          · rw [if_neg hc] at hu
            subst hu
            exact hI.onceNotDaily j' (hjobs j' hj') rid' hrid' r0 hr0 hid
        · intro r hr hd
          rw [hdb] at hr
          simp only [removeMapping, setCompleted, List.mem_map] at hr
          obtain ⟨r0, hr0, hu⟩ := hr
          by_cases hc : r0.id = rid
          · have hnd := hI.onceNotDaily j hj rid hrm r0 hr0 hc
            rw [if_pos hc] at hu
            have hsty : r.scheduleType = r0.scheduleType := by rw [← hu]
            rw [hsty] at hd
            exact absurd hd hnd
          · rw [if_neg hc] at hu
            subst hu
            exact hI.dailyActive r0 hr0 hd
        · intro r hr
          rw [hnx]
          rw [hdb] at hr
          simp only [removeMapping, setCompleted, List.mem_map] at hr
          obtain ⟨r0, hr0, hu⟩ := hr
          have hidr : r.id = r0.id := by
            by_cases hc : r0.id = rid
            · rw [if_pos hc] at hu
              rw [← hu]
            · rw [if_neg hc] at hu
              rw [← hu]
          rw [hidr]
          exact hI.idBound r0 hr0
        · intro j' hj' rid' hrid'
          rw [hnx]
          exact hI.jobIdBound j' (hjobs j' hj') rid' hrid'
        · have hids : (fireOnceStep f j s).db.reminders.map (fun r => r.id) =
              s.db.reminders.map fun r => r.id := by
            rw [hdb]
            simp only [removeMapping, setCompleted, List.map_map]
            refine List.map_congr_left fun r0 _ => ?_
            by_cases hc : r0.id = rid <;> simp [Function.comp, hc]
          rw [hids]
          exact hI.idsNodup

lemma inv_fireCron (f : Bool) (j : Job) {s : Sys} (hI : SysInv s)
    (hj : j ∈ s.sch.jobs) (ht : ∃ h mi, j.trigger = Trigger.cron h mi) :
    SysInv (fireCronStep f j s) := by
  obtain ⟨h, mi, htr⟩ := ht
  have hrm := hI.cronNone j hj h mi htr
  have heq : fireCronStep f j s = s := by
    unfold fireCronStep sendReminder
    rw [hrm]
  rw [heq]
  exact hI

lemma inv_delete (uid rid : Nat) {s s' : Sys}
    (h : deleteReminderStep uid rid s = some s') (hI : SysInv s) : SysInv s' := by
  unfold deleteReminderStep at h
  by_cases hb : (s.db.reminders.any fun r => decide (r.id = rid ∧ r.userId = uid)) = true
  · rw [if_pos hb] at h
    injection h with h
    subst h
    refine SysInv_shrink hI ?_ ?_ rfl ?_
    · intro r hr
      exact (List.mem_filter.mp hr).1
    · exact hI.idsNodup.sublist (List.Sublist.map _ (List.filter_sublist _))
    · intro j' hj'
      exact foldl_removeJob_subset _ _ j' hj'
  · rw [if_neg (by rw [Bool.not_eq_true] at hb ⊢; exact hb)] at h
    exact absurd h (by simp)

lemma inv_clear (uid : Nat) {s : Sys} (hI : SysInv s) :
    SysInv (clearCompletedStep uid s) := by
  refine SysInv_shrink hI ?_ ?_ rfl ?_
  · intro r hr
    exact (List.mem_filter.mp hr).1
  · exact hI.idsNodup.sublist (List.Sublist.map _ (List.filter_sublist _))
  · exact fun j hj => hj

lemma SysInv_reload_aux {s s' : Sys} (hI : SysInv s)
    (hrem : s'.db.reminders = s.db.reminders)
    (hnext : s'.db.nextId = s.db.nextId)
    (hjobs : ∀ j ∈ s'.sch.jobs,
        (∃ r ∈ s.db.reminders, j.remId = some r.id ∧ r.scheduleType ≠ stDaily ∧
          ∃ rt, j.trigger = Trigger.once rt)
        ∨ (j.remId = none ∧ ∃ h mi, j.trigger = Trigger.cron h mi)) :
    SysInv s' := by
  constructor
  · intro j hj h mi htr
    rcases hjobs j hj with ⟨r0, -, -, -, rt, hrt⟩ | hcr
    · rw [hrt] at htr
      exact absurd htr (by simp)
    · exact hcr.1
  · intro j hj rid hrid r hr hid
    rw [hrem] at hr
    rcases hjobs j hj with ⟨r0, hr0, hjr, hnd0, -⟩ | hcr
    · rw [hjr] at hrid
      injection hrid with hrid
      have : r = r0 :=
        List.inj_on_of_nodup_map hI.idsNodup hr hr0 (by rw [hid, hrid])
      rw [this]
      exact hnd0
    · rw [hcr.1] at hrid
      exact absurd hrid (by simp)
  · intro r hr hd
    rw [hrem] at hr
    exact hI.dailyActive r hr hd
  · intro r hr
    rw [hrem] at hr
    rw [hnext]
    exact hI.idBound r hr
  · intro j hj rid hrid
    rw [hnext]
    rcases hjobs j hj with ⟨r0, hr0, hjr, -, -⟩ | hcr
    · rw [hjr] at hrid
      injection hrid with hrid
      rw [← hrid]
      exact hI.idBound r0 hr0
    · rw [hcr.1] at hrid
      exact absurd hrid (by simp)
  · rw [hrem]
    exact hI.idsNodup

lemma inv_restart (now : Nat) {s : Sys} (hI : SysInv s) :
    SysInv (reloadScheduledJobs now ⟨s.db, Sched.empty⟩) := by
  obtain ⟨hu, hrB, hnB, -, -, -, hm⟩ := reloadRows_effect now
    (s.db.reminders.filter fun r => if r.status = stActive then true else false)
    s.db Sched.empty
  refine SysInv_reload_aux hI hrB hnB ?_
  intro j hj
  rcases hm j hj with hin | hshape | hshape
  · exact absurd hin (List.not_mem_nil j)
  · obtain ⟨r0, hr0mem, hrest⟩ := hshape
    exact Or.inl ⟨r0, (List.mem_filter.mp hr0mem).1, hrest⟩
  · exact Or.inr hshape

lemma inv_step {a b : Sys} (hI : SysInv a) (hs : Step a b) : SysInv b := by
  cases hs with
  | repeatNo now target msg tval => exact inv_repeatNo now target msg tval hI
  | repeatCount now target msg tval rep =>
      exact inv_repeatCount now target msg tval rep hI
  | dateFinalize target msg dateStr timeStr =>
      exact inv_dateFinalize target msg dateStr timeStr hI
  | dailyFinalize target msg times => exact inv_dailyFinalize target msg times hI
  | fireOnce f j hj ht => exact inv_fireOnce f j hI (by assumption)
  | fireCron f j hj ht => exact inv_fireCron f j hI (by assumption) (by assumption)
  | deleteRem uid rid h => exact inv_delete uid rid (by assumption) hI
  | clearStep uid => exact inv_clear uid hI
  | restart now => exact inv_restart now hI

lemma reachable_inv {s : Sys} (h : Reachable s) : SysInv s := by
  unfold Reachable at h
  induction h with
  | refl => exact inv_init
  | tail hab hbc ih => exact inv_step ih hbc

/-- C6: in every reachable state, firing a daily (cron) trigger leaves
    the database — in particular every reminder's status — unchanged
    (cron jobs are armed with `rem_id=None`, so `send_reminder` never
    reaches the completion path), and every daily reminder in the store is
    `active`: a daily reminder leaves the active state only through
    explicit deletion. -/
theorem daily_fire_preserves_status (s : Sys) (hr : Reachable s) :
    (∀ (f : Bool) (j : Job), j ∈ s.sch.jobs →
        (∃ h mi, j.trigger = Trigger.cron h mi) →
        (fireCronStep f j s).db = s.db)
    ∧ (∀ r ∈ s.db.reminders, r.scheduleType = stDaily → r.status = stActive) := by
  have hI := reachable_inv hr
  refine ⟨?_, hI.dailyActive⟩
  intro f j hj ht
  obtain ⟨h, mi, htr⟩ := ht
  have hrm := hI.cronNone j hj h mi htr
  unfold fireCronStep sendReminder
  rw [hrm]

def c6Sys : Sys := dailyFinalizeStep 7 ['x'] ["10.00 AM".toList] Sys.init

def c6Job : Job := ⟨0, Trigger.cron 10 0, 7, ['x'], none⟩

/-- Witness for C6: after creating one daily reminder from the initial
    state, the armed cron job's fire leaves the database unchanged, and
    the daily reminder is active. -/
theorem daily_fire_preserves_status_witness :
    c6Job ∈ c6Sys.sch.jobs
    ∧ (fireCronStep true c6Job c6Sys).db = c6Sys.db
    ∧ c6Sys.db.reminders =
        [⟨1, 7, ['x'], stDaily, "10.00 AM".toList, 0, stActive⟩] := by
  refine ⟨by decide, ?_, by decide⟩
  exact (daily_fire_preserves_status c6Sys
    (Relation.ReflTransGen.single
      (Step.dailyFinalize 7 ['x'] ["10.00 AM".toList] Sys.init))).1
    true c6Job (by decide) ⟨10, 0, rfl⟩

end NotifyBot
